import Mathlib

/-!
The exported functions of the Wine preprocessor (`libs/wpp/wpp.c`)

A shallow embedding of `wpp.c` and theorems about it.

* C strings are Lean `String`s, a `char *` that may be `NULL` is an `Option String`.
* The singly linked list `cmdline_defines` is a `List define`, head of the list first.
* `pp_xmalloc` and `pp_xstrdup` live in another file of the library; all that `wpp.c`
  relies on is that they return `NULL` when storage cannot be obtained.  The outcome of
  every allocation request is therefore a parameter: a `Heap` carries the outcome of the
  request number `i`, for every `i`, and the number of requests made so far.
-/

namespace Wpp

/-! ## The define table -/

/-- The `struct define` of lines 33-38 (the `next` pointer is the tail of the list). -/
structure define where
  name : String
  value : Option String
  deriving DecidableEq, Repr

/-- The list headed by the static `cmdline_defines` of line 40. -/
abbrev Table := List define

/-- The allocator as `wpp.c` sees it: request number `i` succeeds iff `outcome i`. -/
structure Heap where
  outcome : Nat → Bool
  requests : Nat

/-- The call `pp_xmalloc(size)`: whether a block was returned, and the heap afterwards. -/
def pp_xmalloc (h : Heap) : Bool × Heap :=
  (h.outcome h.requests, { h with requests := h.requests + 1 })

/-- The call `pp_xstrdup(s)`: a copy of `s`, or `NULL` when the block cannot be obtained. -/
def pp_xstrdup (s : String) (h : Heap) : Option String × Heap :=
  match pp_xmalloc h with
  | (true, h1) => (some s, h1)
  | (false, h1) => (none, h1)

/-- The search loop shared by `wpp_add_define` and `wpp_del_define`
(`for (def = cmdline_defines; def; def = def->next) if (!strcmp(def->name, name))`):
the position of the first node whose name is `name`. -/
def find_define : Table → String → Option Nat
  | [], _ => none
  | d :: rest, name =>
    if d.name = name then some 0 else (find_define rest name).map (· + 1)

/-- The assignment `def->value = v` at the node in position `i`. -/
def set_value : Table → Nat → Option String → Table
  | [], _, _ => []
  | d :: rest, 0, v => { d with value := v } :: rest
  | d :: rest, i + 1, v => d :: set_value rest i v

/-- The function `wpp_add_define` (lines 75-114): status, table and heap afterwards. -/
def wpp_add_define (name : String) (value : Option String) (t : Table) (h : Heap) :
    Int × Table × Heap :=
  let value := value.getD ""
  match find_define t name with
  | some i =>
    match pp_xstrdup value h with
    | (none, h1) => (1, t, h1)
    | (some new_value, h1) => (0, set_value t i (some new_value), h1)
  | none =>
    match pp_xmalloc h with
    | (false, h1) => (1, t, h1)
    | (true, h1) =>
      match pp_xstrdup name h1 with
      | (none, h2) => (1, t, h2)
      | (some def_name, h2) =>
        match pp_xstrdup value h2 with
        | (none, h3) => (1, t, h3)
        | (some def_value, h3) => (0, { name := def_name, value := some def_value } :: t, h3)

/-- The function `wpp_del_define` (lines 118-131). -/
def wpp_del_define (name : String) (t : Table) : Table :=
  match find_define t name with
  | some i => set_value t i none
  | none => t

/-- The call `strchr(s, c)` as the offset of the first `c` in `s`, `none` for `NULL`. -/
def strchr : List Char → Char → Option Nat
  | [], _ => none
  | x :: rest, c => if x = c then some 0 else (strchr rest c).map (· + 1)

/-- The function `wpp_add_cmdline_define` (lines 135-146).  After `*p++ = 0` the buffer
`str` ends where the `=` was and `p` points behind it.  The status of the
`wpp_add_define` call of line 143 is not looked at. -/
def wpp_add_cmdline_define (value : String) (t : Table) (h : Heap) : Int × Table × Heap :=
  match pp_xstrdup value h with
  | (none, h1) => (1, t, h1)
  | (some str, h1) =>
    let sp : String × Option String :=
      match strchr str.toList '=' with
      | some i => (String.mk (str.toList.take i), some (String.mk (str.toList.drop (i + 1))))
      | none => (str, none)
    let r := wpp_add_define sp.1 sp.2 t h1
    (0, r.2.1, r.2.2)

/-! ## Observations on the table -/

/-- The names of the entries, in table order. -/
def names (t : Table) : List String := t.map (·.name)

/-- A lookup of `name`: the value of the first entry whose name is `name`
(`none` when there is no such entry, `some none` when its value is `NULL`). -/
def lookup : Table → String → Option (Option String)
  | [], _ => none
  | d :: rest, name => if d.name = name then some d.value else lookup rest name

/-- The entries named `name`. -/
def entries_named (t : Table) (name : String) : List define :=
  t.filter (fun d => d.name = name)

/-- A heap on which every request succeeds, after `n` requests. -/
def plenty (n : Nat) : Heap := { outcome := fun _ => true, requests := n }

/-- Whether every request made between the heap `h` and the later heap `h2` succeeded. -/
def served (h h2 : Heap) : Bool :=
  (List.range (h2.requests - h.requests)).all (fun k => h.outcome (h.requests + k))

/-- One call of a function that changes the table. -/
inductive Op where
  | add_define (name : String) (value : Option String)
  | add_cmdline_define (value : String)
  | del_define (name : String)

/-- The table and heap after one call. -/
def Op.apply : Op → Table × Heap → Table × Heap
  | .add_define name value, (t, h) => (wpp_add_define name value t h).2
  | .add_cmdline_define value, (t, h) => (wpp_add_cmdline_define value t h).2
  | .del_define name, (t, h) => (wpp_del_define name t, h)

/-- The table and heap after a sequence of calls, from the empty table
(`cmdline_defines` is a zero-initialised static). -/
def run (ops : List Op) (h : Heap) : Table × Heap :=
  ops.foldl (fun s op => op.apply s) ([], h)

/-- The name and value the words of the specification give for a command-line token:
split at the first `=` when there is one, else the whole token and the empty value. -/
def cmdline_split (s : String) : String × String :=
  if '=' ∈ s.toList then
    (String.mk (s.toList.takeWhile (· ≠ '=')),
     String.mk ((s.toList.dropWhile (· ≠ '=')).drop 1))
  else (s, "")

/-! ## A preprocessing run

The functions below call into the rest of the library (`pp_push_define_state`,
`pp_add_define`, `ppy_parse`, `ppy_error`, `pp_pop_define_state`, the allocator) and into
the C library.  What those calls return is a parameter (`Env`), and every call is
recorded in a trace.  The global `pp_status.state` is shared with the library: every
call into the library may change it, in a way that is a parameter as well.
-/

/-- A `FILE *`. -/
inductive FILE where
  /-- The stream `stdin`. -/
  | stdin
  /-- The stream that `fopen(path, "rt")` returned. -/
  | fopened (path : String)
  /-- The stream that `fdopen(fd, "wt")` returned. -/
  | fdopened (fd : Int)
  /-- A stream of the caller. -/
  | given (id : Nat)
  deriving DecidableEq, Repr

/-- What a run does to the outside, in the order in which it happens. -/
inductive Event where
  /-- A `pp_xmalloc` request and whether it returned a block. -/
  | pp_xmalloc (ok : Bool)
  /-- A `pp_xstrdup(s)` request and whether it returned a copy. -/
  | pp_xstrdup (s : String) (ok : Bool)
  /-- The call `pp_push_define_state()` and what it returned. -/
  | pp_push_define_state (ret : Int)
  /-- The call `pp_pop_define_state()`. -/
  | pp_pop_define_state
  /-- The call `pp_add_define(name, value)` and whether it returned an entry. -/
  | pp_add_define (name value : Option String) (entry : Bool)
  /-- The assignment `ppp->type = def_special` on the entry just returned. -/
  | set_def_special
  /-- The call `fopen(path, "rt")` and whether it returned a stream. -/
  | fopen (path : String) (ok : Bool)
  /-- The call `fclose(f)`. -/
  | fclose (f : FILE)
  /-- The call `fprintf(f, ...)` of `wpp_parse` with the text it formats. -/
  | fprintf (f : FILE) (text : String)
  /-- The call `ppy_error(...)` with the message it formats. -/
  | ppy_error (msg : String)
  /-- The call `ppy_parse()`: the value of `ppy_out` it ran with, the text it wrote there,
  what it returned, and the value of `pp_status.state` when it returned. -/
  | ppy_parse (out : Option FILE) (written : String) (ret : Int) (status : Int)
  /-- The call `mkstemps(template, 0)` and what it returned. -/
  | mkstemps (template : String) (ret : Int)
  /-- The call `fdopen(fd, "wt")` and whether it returned a stream. -/
  | fdopen (fd : Int) (ok : Bool)
  deriving DecidableEq, Repr

/-- The behaviour of everything `wpp.c` calls during a run. -/
structure Env where
  /-- The value that the call into the library recorded at position `n` of the trace
  leaves in `pp_status.state` when it found `s` there. -/
  status : Nat → Int → Int
  /-- What `pp_push_define_state()` returns. -/
  push_ret : Int
  /-- Whether the `pp_add_define` call recorded at position `n` returns an entry. -/
  entry : Nat → Bool
  /-- Whether, in `pp_add_define( pp_xstrdup(a), pp_xstrdup(b) )`, the second argument is
  evaluated before the first.  C leaves the order to the compiler. -/
  value_first : Bool
  /-- What `strftime` leaves in `buf` for the date format. -/
  date : String
  /-- What `strftime` leaves in `buf` for the time format. -/
  time : String
  /-- Whether `fopen(path, "rt")` returns a stream. -/
  fopen_ok : String → Bool
  /-- What `ppy_parse()` returns. -/
  parse_ret : Int
  /-- What `ppy_parse()` writes to `ppy_out`. -/
  parse_written : String
  /-- The descriptor `mkstemps` returns, `none` when it returns `-1`. -/
  mkstemps_fd : Option Nat
  /-- The six characters `mkstemps` leaves in the place of `XXXXXX` in the buffer,
  whether it returns a descriptor or `-1`. -/
  mkstemps_letters : String
  /-- Whether `fdopen(fd, "wt")` returns a stream. -/
  fdopen_ok : Int → Bool

/-- The globals a run reads or writes, and the trace. -/
structure World where
  cmdline_defines : Table
  heap : Heap
  pp_status_input : Option String
  pp_status_state : Int
  ppy_in : Option FILE
  ppy_out : Option FILE
  trace : List Event

/-- A call into the library: recorded, and `pp_status.state` is what the call leaves. -/
def collab (env : Env) (e : Event) (w : World) : World :=
  { w with
    trace := w.trace ++ [e]
    pp_status_state := env.status w.trace.length w.pp_status_state }

/-- A call into the C library, or an assignment through a pointer the library gave. -/
def libc (e : Event) (w : World) : World :=
  { w with trace := w.trace ++ [e] }

/-- The call `pp_xmalloc(size)` during a run. -/
def World.xmalloc (env : Env) (w : World) : Bool × World :=
  let r := pp_xmalloc w.heap
  (r.1, collab env (Event.pp_xmalloc r.1) { w with heap := r.2 })

/-- The call `pp_xstrdup(s)` during a run. -/
def World.xstrdup (env : Env) (s : String) (w : World) : Option String × World :=
  let r := pp_xstrdup s w.heap
  (r.1, collab env (Event.pp_xstrdup s r.1.isSome) { w with heap := r.2 })

/-- The call `pp_add_define(name, value)`: whether an entry is returned. -/
def pp_add_define (env : Env) (name value : Option String) (w : World) : Bool × World :=
  let entry := env.entry w.trace.length
  (entry, collab env (Event.pp_add_define name value entry) w)

/-- The call `pp_push_define_state()`. -/
def pp_push_define_state (env : Env) (w : World) : Int × World :=
  (env.push_ret, collab env (Event.pp_push_define_state env.push_ret) w)

/-- The call `pp_pop_define_state()`. -/
def pp_pop_define_state (env : Env) (w : World) : World :=
  collab env Event.pp_pop_define_state w

/-- The call `ppy_error(...)`. -/
def ppy_error (env : Env) (msg : String) (w : World) : World :=
  collab env (Event.ppy_error msg) w

/-- The call `ppy_parse()`. -/
def ppy_parse (env : Env) (w : World) : Int × World :=
  let status := env.status w.trace.length w.pp_status_state
  (env.parse_ret,
   { w with
     trace := w.trace ++ [Event.ppy_parse w.ppy_out env.parse_written env.parse_ret status]
     pp_status_state := status })

/-- The two `pp_xstrdup` calls in the argument list of
`pp_add_define( pp_xstrdup(name), pp_xstrdup(value) )`, in the order the compiler chose:
the copy of the name, the copy of the value, and the world afterwards. -/
def copy_args (env : Env) (name value : String) (w : World) :
    (Option String × Option String) × World :=
  if env.value_first then
    let c := World.xstrdup env value w
    let n := World.xstrdup env name c.2
    ((n.1, c.1), n.2)
  else
    let n := World.xstrdup env name w
    let c := World.xstrdup env value n.2
    ((n.1, c.1), c.2)

/-- One `pp_add_define( pp_xstrdup(name), pp_xstrdup(value) )`, as in lines 48, 59, 62, 64
and 68: whether an entry is returned, and the world afterwards. -/
def add_special (env : Env) (name value : String) (w : World) : Bool × World :=
  let a := copy_args env name value w
  pp_add_define env a.1.1 a.1.2 a.2

/-- The loop of `add_cmdline_defines` (lines 46-49) from the node `def` on. -/
def add_cmdline_defines_from (env : Env) : Table → World → World
  | [], w => w
  | d :: rest, w =>
    match d.value with
    | none => add_cmdline_defines_from env rest w
    | some v => add_cmdline_defines_from env rest (add_special env d.name v w).2

/-- The function `add_cmdline_defines` (lines 42-50). -/
def add_cmdline_defines (env : Env) (w : World) : World :=
  add_cmdline_defines_from env w.cmdline_defines w

/-- The function `add_special_defines` (lines 52-71). -/
def add_special_defines (env : Env) (w : World) : World :=
  let w := (add_special env "__DATE__" env.date w).2
  let w := (add_special env "__TIME__" env.time w).2
  let ppp := add_special env "__FILE__" "" w
  let w := if ppp.1 then libc Event.set_def_special ppp.2 else ppp.2
  let ppp := add_special env "__LINE__" "" w
  if ppp.1 then libc Event.set_def_special ppp.2 else ppp.2

/-- Lines 179-184 of `wpp_parse`: whether there is an input stream, and the world after
`ppy_in` was assigned. -/
def open_input (env : Env) (input : Option String) (w : World) : Bool × World :=
  match input with
  | none => (true, { w with ppy_in := some FILE.stdin })
  | some path =>
    if env.fopen_ok path then
      (true, libc (Event.fopen path true) { w with ppy_in := some (FILE.fopened path) })
    else
      (false, libc (Event.fopen path false) { w with ppy_in := none })

/-- The function `wpp_parse` (lines 166-198). -/
def wpp_parse (env : Env) (input : Option String) (output : FILE) (w : World) :
    Int × World :=
  let w := { w with pp_status_input := none }
  let w := { w with pp_status_state := 0 }
  let r := pp_push_define_state env w
  if r.1 ≠ 0 then (r.1, r.2)
  else
    let w := add_cmdline_defines env r.2
    let w := add_special_defines env w
    let o := open_input env input w
    if !o.1 then
      (2, ppy_error env ("Could not open " ++ input.getD "" ++ "\n") o.2)
    else
      let w := { o.2 with pp_status_input := input }
      let w := { w with ppy_out := some output }
      let w := libc (Event.fprintf output ("# 1 \"" ++ input.getD "" ++ "\" 1\n")) w
      let p := ppy_parse env w
      let ret := if p.1 = 0 ∧ p.2.pp_status_state ≠ 0 then p.2.pp_status_state else p.1
      let w := if input.isSome then libc (Event.fclose (p.2.ppy_in.getD FILE.stdin)) p.2 else p.2
      let w := pp_pop_define_state env w
      (ret, w)

/-- The function `wpp_parse_temp` (lines 202-232): status, `*output_name` when it was
assigned, and the world afterwards.  `temp_name` is the buffer as `mkstemps` leaves it:
the template with the six characters of `mkstemps` in the place of `XXXXXX`. -/
def wpp_parse_temp (env : Env) (input output_base : Option String) (w : World) :
    Int × Option String × World :=
  let output_base :=
    match output_base with
    | none => "wpptmp"
    | some b => if b = "" then "wpptmp" else b
  let m := World.xmalloc env w
  if !m.1 then (1, none, m.2)
  else
    let template := output_base ++ ".XXXXXX"
    let temp_name :=
      String.mk (template.toList.take (template.length - 6)) ++ env.mkstemps_letters
    match env.mkstemps_fd with
    | none =>
      (2, none,
       ppy_error env ("Could not generate a temp name from " ++ temp_name ++ "\n")
         (libc (Event.mkstemps template (-1)) m.2))
    | some fd =>
      let w := libc (Event.mkstemps template fd) m.2
      if !env.fdopen_ok fd then
        (2, none,
         ppy_error env ("Could not open fd " ++ temp_name ++ " for writing\n")
           (libc (Event.fdopen fd false) w))
      else
        let w := libc (Event.fdopen fd true) w
        let output := FILE.fdopened fd
        let r := wpp_parse env input output w
        (r.1, some temp_name, libc (Event.fclose output) r.2)

/-! ## Observations on a run -/

/-- What a call added to the trace. -/
def new_events (before after : World) : List Event :=
  after.trace.drop before.trace.length

/-- The number of `pp_pop_define_state` calls in a trace. -/
def pops (tr : List Event) : Nat := tr.count Event.pp_pop_define_state

/-- The `pp_add_define` calls of a trace as pairs of arguments. -/
def added_defines : List Event → List (Option String × Option String)
  | [] => []
  | Event.pp_add_define n v _ :: rest => (n, v) :: added_defines rest
  | _ :: rest => added_defines rest

/-- Whether an event is a call of `ppy_parse`. -/
def Event.is_parse : Event → Bool
  | Event.ppy_parse _ _ _ _ => true
  | _ => false

/-- The text a trace puts on the stream `f`: the `fprintf` calls of `wpp_parse` and what
the engine wrote while `ppy_out` was `f`. -/
def written (f : FILE) : List Event → String
  | [] => ""
  | Event.fprintf g text :: rest => (if g = f then text else "") ++ written f rest
  | Event.ppy_parse out text _ _ :: rest =>
    (if out = some f then text else "") ++ written f rest
  | _ :: rest => written f rest

/-- An environment in which every call succeeds and the engine reports nothing. -/
def calm : Env :=
  { status := fun _ s => s
    push_ret := 0
    entry := fun _ => true
    value_first := true
    date := "\"Oct 30 2026\""
    time := "\"12:00:00\""
    fopen_ok := fun _ => true
    parse_ret := 0
    parse_written := ""
    mkstemps_fd := some 3
    mkstemps_letters := "a1b2c3"
    fdopen_ok := fun _ => true }

/-- A world before the first run. -/
def World.init (t : Table) : World :=
  { cmdline_defines := t
    heap := plenty 0
    pp_status_input := none
    pp_status_state := 0
    ppy_in := none
    ppy_out := none
    trace := [] }

/-- Whether an event is one of those by which defines are handed to the engine: an
allocation request, a `pp_add_define` call or the marking of an entry. -/
def Event.is_setup : Event → Bool
  | Event.pp_xmalloc _ => true
  | Event.pp_xstrdup _ _ => true
  | Event.pp_add_define _ _ _ => true
  | Event.set_def_special => true
  | _ => false

/-- Whether an event puts text on a stream: the `fprintf` of `wpp_parse`, or the engine. -/
def Event.is_output : Event → Bool
  | Event.fprintf _ _ => true
  | Event.ppy_parse _ _ _ _ => true
  | _ => false

/-- Whether line 179-180 of `wpp_parse` gets an input stream: always for `stdin`, and for
a path when `fopen` returns a stream. -/
def opens (env : Env) (input : Option String) : Bool :=
  match input with
  | none => true
  | some path => env.fopen_ok path

/-- The world `w2` comes from `w` by events that satisfy `p`, the table, the streams and
`pp_status.input` being what they were. -/
def Grows (p : Event → Prop) (w w2 : World) : Prop :=
  (∃ evs, w2.trace = w.trace ++ evs ∧ ∀ e ∈ evs, p e)
  ∧ w2.cmdline_defines = w.cmdline_defines ∧ w2.ppy_in = w.ppy_in
  ∧ w2.ppy_out = w.ppy_out ∧ w2.pp_status_input = w.pp_status_input

/-- The world when lines 170-177 of `wpp_parse` are done, the push having returned 0. -/
def prepared (env : Env) (w : World) : World :=
  add_special_defines env (add_cmdline_defines env
    (collab env (Event.pp_push_define_state 0)
      { w with pp_status_input := none, pp_status_state := 0 }))

/-- The entries of the table that have a value, as pairs of name and value, in table
order. -/
def valued (t : Table) : List (String × String) :=
  t.filterMap (fun d => d.value.map (fun v => (d.name, v)))

/-- The four special defines of a run, in the order of `add_special_defines`. -/
def specials (env : Env) : List (String × String) :=
  [("__DATE__", env.date), ("__TIME__", env.time), ("__FILE__", ""), ("__LINE__", "")]

/-- What the request number `i` for a copy of `s` hands back. -/
def copy (outcome : Nat → Bool) (i : Nat) (s : String) : Option String :=
  if outcome i then some s else none

/-- The arguments of one `pp_add_define( pp_xstrdup(name), pp_xstrdup(value) )` whose two
copies are the requests number `r` and `r + 1`: the value is copied first when
`value_first`, the name otherwise. -/
def copy_pair (outcome : Nat → Bool) (value_first : Bool) (r : Nat) (name value : String) :
    Option String × Option String :=
  if value_first then (copy outcome (r + 1) name, copy outcome r value)
  else (copy outcome r name, copy outcome (r + 1) value)

/-- The arguments of successive `pp_add_define( pp_xstrdup(name), pp_xstrdup(value) )`
calls for the pairs of a list, the first copy being the request number `r`. -/
def copies (outcome : Nat → Bool) (value_first : Bool) : Nat → List (String × String) →
    List (Option String × Option String)
  | _, [] => []
  | r, p :: rest =>
    copy_pair outcome value_first r p.1 p.2 :: copies outcome value_first (r + 2) rest

/-- The events of one `pp_add_define( pp_xstrdup(name), pp_xstrdup(value) )`: the two
requests for a copy, in the order the compiler chose, and the call. -/
def call_events (outcome : Nat → Bool) (value_first : Bool) (r : Nat) (name value : String)
    (entry : Bool) : List Event :=
  if value_first then
    [Event.pp_xstrdup value (outcome r), Event.pp_xstrdup name (outcome (r + 1)),
     Event.pp_add_define (copy outcome (r + 1) name) (copy outcome r value) entry]
  else
    [Event.pp_xstrdup name (outcome r), Event.pp_xstrdup value (outcome (r + 1)),
     Event.pp_add_define (copy outcome r name) (copy outcome (r + 1) value) entry]

/-- Whether an event is a call into the rest of the library, which shares
`pp_status.state`; the others are calls into the C library and assignments. -/
def Event.is_library : Event → Bool
  | Event.pp_xmalloc _ => true
  | Event.pp_xstrdup _ _ => true
  | Event.pp_push_define_state _ => true
  | Event.pp_pop_define_state => true
  | Event.pp_add_define _ _ _ => true
  | Event.ppy_error _ => true
  | Event.ppy_parse _ _ _ _ => true
  | _ => false

/-- The value of `pp_status.state` after the events `evs`, recorded from position `n` of
the trace on, when it was `s` before them: every call into the library leaves what
`env.status` says for its position, nothing else touches it. -/
def replay (env : Env) : Nat → List Event → Int → Int
  | _, [], s => s
  | n, e :: rest, s => replay env (n + 1) rest (if e.is_library then env.status n s else s)

/-- The arguments when every copy is served. -/
def served_copies (l : List (String × String)) : List (Option String × Option String) :=
  l.map (fun p => (some p.1, some p.2))

/-- Whether the next event is the marking of the entry just returned. -/
def followed_by_mark : List Event → Bool
  | Event.set_def_special :: _ => true
  | _ => false

/-- The `pp_add_define` calls of a trace: the two arguments, whether an entry was
returned, and whether that entry was then marked `def_special`. -/
def define_calls : List Event → List (Option String × Option String × Bool × Bool)
  | [] => []
  | Event.pp_add_define n v e :: rest => (n, v, e, followed_by_mark rest) :: define_calls rest
  | _ :: rest => define_calls rest

/-- Whether `wpp_parse_temp` gets no output stream: `mkstemps` returns `-1`, or `fdopen`
returns `NULL` for the descriptor. -/
def temp_fails (env : Env) : Bool :=
  match env.mkstemps_fd with
  | none => true
  | some fd => !env.fdopen_ok fd

/-- The base of the temporary name in the words of the specification: the given base, or
the fallback when there is none or it is empty. -/
def base_or_fallback (output_base : Option String) : String :=
  if output_base = none ∨ output_base = some "" then "wpptmp" else output_base.getD ""

/-- The world `w2` comes from `w` by some events, and `pp_status.state` is what these
events leave. -/
def Tracks (env : Env) (w w2 : World) : Prop :=
  ∃ evs, w2.trace = w.trace ++ evs
    ∧ w2.pp_status_state = replay env w.trace.length evs w.pp_status_state

/-- A run: a call of `wpp_parse` or of `wpp_parse_temp`, with its arguments. -/
inductive Run where
  | parse (input : Option String) (output : FILE)
  | temp (input output_base : Option String)

/-- The status and the world after a run. -/
def Run.exec (env : Env) : Run → World → Int × World
  | Run.parse input output, w => wpp_parse env input output w
  | Run.temp input output_base, w =>
    ((wpp_parse_temp env input output_base w).1, (wpp_parse_temp env input output_base w).2.2)

/-- Whether a run gets to line 176, where the defines are handed over: the push returns
0 and, for `wpp_parse_temp`, the name buffer, the file and its stream were obtained. -/
def Run.hands_over (env : Env) : Run → World → Bool
  | Run.parse _ _, _ => decide (env.push_ret = 0)
  | Run.temp _ _, w =>
    w.heap.outcome w.heap.requests && !temp_fails env && decide (env.push_ret = 0)

/-! ## Lemmas on the table -/

theorem find_define_eq_none {t : Table} {name : String} :
    find_define t name = none ↔ name ∉ names t := by
  induction t with
  | nil => simp [find_define, names]
  | cons d rest ih =>
    by_cases hd : d.name = name
    · simp [find_define, names, hd]
    · have hne : ¬ name = d.name := fun h => hd h.symm
      simp only [names] at ih
      simp [find_define, names, hd, hne, ih]

theorem find_define_cons_ne {d : define} {rest : Table} {name : String} {i : Nat}
    (hd : ¬ d.name = name) (h : find_define (d :: rest) name = some i) :
    ∃ k, find_define rest name = some k ∧ i = k + 1 := by
  cases hf : find_define rest name with
  | none => simp [find_define, hd, hf] at h
  | some k =>
    refine ⟨k, rfl, ?_⟩
    simp [find_define, hd, hf] at h
    exact h.symm

theorem find_define_isSome {t : Table} {name : String} (h : name ∈ names t) :
    ∃ i, find_define t name = some i := by
  cases hf : find_define t name with
  | none => exact absurd h (find_define_eq_none.mp hf)
  | some i => exact ⟨i, rfl⟩

theorem names_set_value (t : Table) (i : Nat) (v : Option String) :
    names (set_value t i v) = names t := by
  induction t generalizing i with
  | nil => rfl
  | cons d rest ih =>
    cases i with
    | zero => simp [set_value, names]
    | succ k =>
      have := ih k
      simp only [names] at this
      simp [set_value, names, this]

theorem length_set_value (t : Table) (i : Nat) (v : Option String) :
    (set_value t i v).length = t.length := by
  have := congrArg List.length (names_set_value t i v)
  simpa [names] using this

theorem find_define_set_value (t : Table) (i : Nat) (v : Option String) (name : String) :
    find_define (set_value t i v) name = find_define t name := by
  induction t generalizing i with
  | nil => rfl
  | cons d rest ih =>
    cases i with
    | zero => simp [set_value, find_define]
    | succ k => simp [set_value, find_define, ih k]

theorem getElem?_set_value_found {t : Table} {name : String} {i : Nat}
    (h : find_define t name = some i) (v : Option String) :
    (set_value t i v)[i]? = some { name := name, value := v } := by
  induction t generalizing i with
  | nil => simp [find_define] at h
  | cons d rest ih =>
    by_cases hd : d.name = name
    · simp [find_define, hd] at h
      subst h
      simp [set_value, hd]
    · obtain ⟨k, hk, rfl⟩ := find_define_cons_ne hd h
      simpa [set_value] using ih hk

theorem getElem?_set_value_other (t : Table) (i j : Nat) (v : Option String) (h : j ≠ i) :
    (set_value t i v)[j]? = t[j]? := by
  induction t generalizing i j with
  | nil => rfl
  | cons d rest ih =>
    cases i with
    | zero =>
      cases j with
      | zero => exact absurd rfl h
      | succ m => simp [set_value]
    | succ k =>
      cases j with
      | zero => simp [set_value]
      | succ m =>
        have hm : m ≠ k := fun e => h (by rw [e])
        simpa [set_value] using ih k m hm

theorem getElem?_name_of_find {t : Table} {name : String} {i : Nat}
    (h : find_define t name = some i) : ∃ d, t[i]? = some d ∧ d.name = name := by
  induction t generalizing i with
  | nil => simp [find_define] at h
  | cons d rest ih =>
    by_cases hd : d.name = name
    · simp [find_define, hd] at h
      subst h
      exact ⟨d, by simp, hd⟩
    · obtain ⟨k, hk, rfl⟩ := find_define_cons_ne hd h
      simpa using ih hk

theorem lookup_set_value_found {t : Table} {name : String} {i : Nat}
    (h : find_define t name = some i) (v : Option String) :
    lookup (set_value t i v) name = some v := by
  induction t generalizing i with
  | nil => simp [find_define] at h
  | cons d rest ih =>
    by_cases hd : d.name = name
    · simp [find_define, hd] at h
      subst h
      simp [set_value, lookup, hd]
    · obtain ⟨k, hk, rfl⟩ := find_define_cons_ne hd h
      simp [set_value, lookup, hd, ih hk]

theorem entries_named_of_not_mem {t : Table} {name : String} (h : name ∉ names t) :
    entries_named t name = [] := by
  simp only [entries_named, List.filter_eq_nil_iff]
  intro d hd hn
  apply h
  simp only [names, List.mem_map]
  exact ⟨d, hd, by simpa using hn⟩

theorem entries_named_set_value {t : Table} {name : String} {i : Nat}
    (h : find_define t name = some i) (hnd : (names t).Nodup) (v : Option String) :
    entries_named (set_value t i v) name = [{ name := name, value := v }] := by
  induction t generalizing i with
  | nil => simp [find_define] at h
  | cons d rest ih =>
    have hnd2 : d.name ∉ names rest ∧ (names rest).Nodup := by
      simpa [names] using hnd
    by_cases hd : d.name = name
    · simp [find_define, hd] at h
      subst h
      have hrest : entries_named rest name = [] :=
        entries_named_of_not_mem (hd ▸ hnd2.1)
      simp only [entries_named] at hrest
      simp [set_value, entries_named, hd, hrest]
    · obtain ⟨k, hk, rfl⟩ := find_define_cons_ne hd h
      have := ih hk hnd2.2
      simp only [entries_named] at this
      simp [set_value, entries_named, hd, this]

/-- With every request served, `wpp_add_define` returns 0 and either overwrites the value
of the first entry named `name` or puts a new entry in front. -/
theorem wpp_add_define_plenty (name : String) (value : Option String) (t : Table) (n : Nat) :
    wpp_add_define name value t (plenty n) =
      match find_define t name with
      | some i => (0, set_value t i (some (value.getD "")), plenty (n + 1))
      | none => (0, { name := name, value := some (value.getD "") } :: t, plenty (n + 3)) := by
  cases hf : find_define t name <;>
    simp [wpp_add_define, hf, pp_xstrdup, pp_xmalloc, plenty]

/-- Whatever the heap, `wpp_add_define` keeps the names apart. -/
theorem wpp_add_define_nodup (name : String) (value : Option String) (t : Table) (h : Heap)
    (hnd : (names t).Nodup) : (names (wpp_add_define name value t h).2.1).Nodup := by
  cases hf : find_define t name with
  | some i =>
    cases ho : h.outcome h.requests <;>
      simp [wpp_add_define, hf, pp_xstrdup, pp_xmalloc, ho, names_set_value, hnd]
  | none =>
    have hnot := find_define_eq_none.mp hf
    cases h0 : h.outcome h.requests <;>
    cases h1 : h.outcome (h.requests + 1) <;>
    cases h2 : h.outcome (h.requests + 1 + 1) <;>
      simp [wpp_add_define, hf, pp_xstrdup, pp_xmalloc, h0, h1, h2, hnd]
    simp only [names] at hnot hnd
    simp [names, hnot, hnd]

theorem wpp_del_define_names (name : String) (t : Table) :
    names (wpp_del_define name t) = names t := by
  cases hf : find_define t name <;> simp [wpp_del_define, hf, names_set_value]

theorem wpp_add_cmdline_define_nodup (s : String) (t : Table) (h : Heap)
    (hnd : (names t).Nodup) : (names (wpp_add_cmdline_define s t h).2.1).Nodup := by
  cases ho : h.outcome h.requests
  · simpa [wpp_add_cmdline_define, pp_xstrdup, pp_xmalloc, ho] using hnd
  · simp only [wpp_add_cmdline_define, pp_xstrdup, pp_xmalloc, ho]
    exact wpp_add_define_nodup _ _ _ _ hnd

theorem Op.apply_nodup (op : Op) (s : Table × Heap) (hnd : (names s.1).Nodup) :
    (names (op.apply s).1).Nodup := by
  obtain ⟨t, h⟩ := s
  cases op with
  | add_define name value => exact wpp_add_define_nodup name value t h hnd
  | add_cmdline_define value => exact wpp_add_cmdline_define_nodup value t h hnd
  | del_define name => simpa [Op.apply, wpp_del_define_names] using hnd

theorem foldl_apply_nodup (ops : List Op) (s : Table × Heap) (hnd : (names s.1).Nodup) :
    (names (ops.foldl (fun s op => op.apply s) s).1).Nodup := by
  induction ops generalizing s with
  | nil => simpa using hnd
  | cons op rest ih => exact ih _ (Op.apply_nodup op s hnd)

theorem run_nodup (ops : List Op) (h : Heap) : (names (run ops h).1).Nodup :=
  foldl_apply_nodup ops ([], h) (by simp [names])

theorem wpp_add_define_plenty_heap (name : String) (value : Option String) (t : Table)
    (n : Nat) : ∃ k, (wpp_add_define name value t (plenty n)).2.2 = plenty k := by
  rw [wpp_add_define_plenty]
  cases find_define t name with
  | none => exact ⟨n + 3, rfl⟩
  | some i => exact ⟨n + 1, rfl⟩

theorem wpp_add_define_plenty_find (name : String) (value : Option String) (t : Table)
    (n : Nat) : ∃ i, find_define (wpp_add_define name value t (plenty n)).2.1 name = some i := by
  rw [wpp_add_define_plenty]
  cases hf : find_define t name with
  | none => exact ⟨0, by simp [find_define]⟩
  | some i => exact ⟨i, by simp [find_define_set_value, hf]⟩

theorem lookup_add_define_plenty (name : String) (value : Option String) (t : Table)
    (n : Nat) :
    lookup (wpp_add_define name value t (plenty n)).2.1 name
      = some (some (value.getD "")) := by
  rw [wpp_add_define_plenty]
  cases hf : find_define t name with
  | none => simp [lookup]
  | some i => exact lookup_set_value_found hf _

theorem wpp_add_define_plenty_table (name : String) (value : Option String) (t : Table)
    (n k : Nat) :
    (wpp_add_define name value t (plenty n)).2.1
      = (wpp_add_define name value t (plenty k)).2.1 := by
  rw [wpp_add_define_plenty, wpp_add_define_plenty]
  cases find_define t name <;> rfl

theorem strchr_eq_none {l : List Char} {c : Char} : strchr l c = none ↔ c ∉ l := by
  induction l with
  | nil => simp [strchr]
  | cons x rest ih =>
    by_cases hx : x = c
    · simp [strchr, hx]
    · have hne : ¬ c = x := fun h => hx h.symm
      simp [strchr, hx, hne, ih]

theorem strchr_eq_some {l : List Char} {c : Char} {i : Nat} (h : strchr l c = some i) :
    l.take i = l.takeWhile (· ≠ c) ∧ l.drop (i + 1) = (l.dropWhile (· ≠ c)).drop 1 := by
  induction l generalizing i with
  | nil => simp [strchr] at h
  | cons x rest ih =>
    by_cases hx : x = c
    · simp [strchr, hx] at h
      subst h
      simp [hx]
    · cases hf : strchr rest c with
      | none => simp [strchr, hx, hf] at h
      | some k =>
        simp [strchr, hx, hf] at h
        subst h
        have := ih hf
        simp [hx, this.1, this.2]

/-- The split that `wpp_add_cmdline_define` makes with `strchr` is the split at the first
`=` of the specification; a token without `=` is passed with a `NULL` value. -/
theorem strchr_split (s : String) :
    (match strchr s.toList '=' with
      | some i => (String.mk (s.toList.take i), some (String.mk (s.toList.drop (i + 1))))
      | none => (s, (none : Option String)))
      = ((cmdline_split s).1, if '=' ∈ s.toList then some (cmdline_split s).2 else none) := by
  cases hf : strchr s.toList '=' with
  | none =>
    have hnot := strchr_eq_none.mp hf
    simp only [cmdline_split, if_neg hnot]
  | some i =>
    have hmem : '=' ∈ s.toList := by
      by_contra hnot
      rw [strchr_eq_none.mpr hnot] at hf
      exact Option.noConfusion hf
    have hs := strchr_eq_some hf
    simp only [cmdline_split, hmem, if_true]
    rw [hs.1, hs.2]

/-! ## The claims on the table -/

/-- C1: with every allocation served, after `wpp_add_define(name, value)` a lookup of
`name` yields `value` (the empty string when `value` is `NULL`), whatever the table was;
and in every state of the table, reached by any calls under any allocation outcomes,
`wpp_add_define(name, v1)` followed by `wpp_add_define(name, v2)` leaves exactly one
entry named `name`, whose value is `v2`. -/
theorem wpp_add_define_then_lookup (name : String) (value : Option String) (t : Table)
    (n : Nat) :
    lookup (wpp_add_define name value t (plenty n)).2.1 name = some (some (value.getD ""))
    ∧ ∀ (ops : List Op) (h : Heap) (v1 v2 : Option String) (m : Nat),
        let first := wpp_add_define name v1 (run ops h).1 (plenty m)
        let second := wpp_add_define name v2 first.2.1 first.2.2
        first.1 = 0 ∧ second.1 = 0 ∧
          entries_named second.2.1 name = [{ name := name, value := some (v2.getD "") }] := by
  constructor
  · exact lookup_add_define_plenty name value t n
  · intro ops h v1 v2 m
    have hnd : (names (wpp_add_define name v1 (run ops h).1 (plenty m)).2.1).Nodup :=
      wpp_add_define_nodup _ _ _ _ (run_nodup ops h)
    obtain ⟨k, hk⟩ := wpp_add_define_plenty_heap name v1 (run ops h).1 m
    obtain ⟨i, hi⟩ := wpp_add_define_plenty_find name v1 (run ops h).1 m
    have h1 : (wpp_add_define name v1 (run ops h).1 (plenty m)).1 = 0 := by
      rw [wpp_add_define_plenty]
      cases find_define (run ops h).1 name <;> rfl
    refine ⟨h1, ?_, ?_⟩
    · show (wpp_add_define name v2 _ _).1 = 0
      rw [hk, wpp_add_define_plenty, hi]
    · show entries_named (wpp_add_define name v2 _ _).2.1 name = _
      rw [hk, wpp_add_define_plenty, hi]
      exact entries_named_set_value hi hnd _

/-- C2: from the empty table, after every finite sequence of `wpp_add_define`,
`wpp_add_cmdline_define` and `wpp_del_define` calls, with any arguments and any
allocation outcomes, no two entries of the table have the same name. -/
theorem cmdline_defines_names_unique (ops : List Op) (h : Heap) :
    (names (run ops h).1).Nodup ∧
      ∀ (i j : Nat) (a b : define), (run ops h).1[i]? = some a → (run ops h).1[j]? = some b →
        a.name = b.name → i = j := by
  have hnd := run_nodup ops h
  refine ⟨hnd, ?_⟩
  intro i j a b ha hb hab
  have hi : i < (names (run ops h).1).length := by
    have := (List.getElem?_eq_some_iff.mp ha).1
    simpa [names] using this
  have hj : j < (names (run ops h).1).length := by
    have := (List.getElem?_eq_some_iff.mp hb).1
    simpa [names] using this
  have hia : (names (run ops h).1)[i]? = some a.name := by simp [names, ha]
  have hjb : (names (run ops h).1)[j]? = some b.name := by simp [names, hb]
  have e1 : (names (run ops h).1)[i] = a.name := by
    have := List.getElem?_eq_getElem hi
    rw [hia] at this
    exact (Option.some.inj this).symm
  have e2 : (names (run ops h).1)[j] = b.name := by
    have := List.getElem?_eq_getElem hj
    rw [hjb] at this
    exact (Option.some.inj this).symm
  exact (List.Nodup.getElem_inj_iff hnd).mp (by rw [e1, e2, hab])

/-- C3: when the table has an entry named `name`, a `wpp_add_define(name, value)` whose
allocation is served returns 0 and updates in place: the number of entries and the
sequence of names are unchanged, every entry with another name is unchanged, and the
first entry named `name`, at the position it already had, now holds `value`, all other
positions holding what they held. -/
theorem wpp_add_define_in_place (name : String) (value : Option String) (t : Table)
    (n : Nat) (hmem : name ∈ names t) :
    let r := wpp_add_define name value t (plenty n)
    r.1 = 0 ∧ r.2.1.length = t.length ∧ names r.2.1 = names t
    ∧ (∀ (i : Nat) (d : define), t[i]? = some d → d.name ≠ name → r.2.1[i]? = some d)
    ∧ ∃ i, find_define t name = some i ∧ find_define r.2.1 name = some i
        ∧ r.2.1[i]? = some { name := name, value := some (value.getD "") }
        ∧ lookup r.2.1 name = some (some (value.getD ""))
        ∧ ∀ j, j ≠ i → r.2.1[j]? = t[j]? := by
  obtain ⟨i, hi⟩ := find_define_isSome hmem
  have hr : wpp_add_define name value t (plenty n)
      = (0, set_value t i (some (value.getD "")), plenty (n + 1)) := by
    rw [wpp_add_define_plenty, hi]
  intro r
  have hr2 : r = (0, set_value t i (some (value.getD "")), plenty (n + 1)) := hr
  rw [hr2]
  refine ⟨rfl, length_set_value _ _ _, names_set_value _ _ _, ?_, i, hi, ?_, ?_, ?_, ?_⟩
  · intro j d hj hne
    have hji : j ≠ i := by
      rintro rfl
      obtain ⟨d2, hd2, hn2⟩ := getElem?_name_of_find hi
      rw [hj] at hd2
      exact hne ((Option.some.inj hd2) ▸ hn2)
    rw [getElem?_set_value_other _ _ _ _ hji, hj]
  · rw [find_define_set_value, hi]
  · exact getElem?_set_value_found hi _
  · exact lookup_set_value_found hi _
  · intro j hj
    exact getElem?_set_value_other _ _ _ _ hj

/-- C3 at a table of three entries: the middle one is overwritten where it stands. -/
theorem wpp_add_define_in_place_witness :
    "B" ∈ names [⟨"C", some "3"⟩, ⟨"B", some "2"⟩, ⟨"A", some "1"⟩] ∧
    (wpp_add_define "B" (some "two") [⟨"C", some "3"⟩, ⟨"B", some "2"⟩, ⟨"A", some "1"⟩]
        (plenty 0)).2.1 = [⟨"C", some "3"⟩, ⟨"B", some "two"⟩, ⟨"A", some "1"⟩] ∧
    names (wpp_add_define "B" (some "two")
        [⟨"C", some "3"⟩, ⟨"B", some "2"⟩, ⟨"A", some "1"⟩] (plenty 0)).2.1
      = names [⟨"C", some "3"⟩, ⟨"B", some "2"⟩, ⟨"A", some "1"⟩] :=
  ⟨by decide, by decide,
   (wpp_add_define_in_place "B" (some "two")
      [⟨"C", some "3"⟩, ⟨"B", some "2"⟩, ⟨"A", some "1"⟩] 0 (by decide)).2.2.1⟩


/-- C5: with every allocation served, `wpp_add_cmdline_define(s)` returns 0 and leaves the
table that `wpp_add_define(n, v)` leaves, where `n` and `v` are the parts of `s` before
and after its first `=`, or `s` and the empty string when `s` has no `=`.  So after
`wpp_add_cmdline_define("FOO=bar")` a lookup of `FOO` yields `bar`, and after
`wpp_add_cmdline_define("FOO")` it yields the empty value. -/
theorem wpp_add_cmdline_define_splits (s : String) (t : Table) (n k : Nat) :
    (wpp_add_cmdline_define s t (plenty n)).1 = 0
    ∧ (wpp_add_cmdline_define s t (plenty n)).2.1
        = (wpp_add_define (cmdline_split s).1 (some (cmdline_split s).2) t (plenty k)).2.1
    ∧ cmdline_split "FOO=bar" = ("FOO", "bar")
    ∧ lookup (wpp_add_cmdline_define "FOO=bar" t (plenty n)).2.1 "FOO" = some (some "bar")
    ∧ cmdline_split "FOO" = ("FOO", "")
    ∧ lookup (wpp_add_cmdline_define "FOO" t (plenty n)).2.1 "FOO" = some (some "") := by
  have key : ∀ (s : String),
      (wpp_add_cmdline_define s t (plenty n)).2.1
        = (wpp_add_define (cmdline_split s).1 (some (cmdline_split s).2) t
            (plenty (n + 1))).2.1 := by
    intro s
    have hs := strchr_split s
    simp only [wpp_add_cmdline_define, pp_xstrdup, pp_xmalloc, plenty]
    rw [hs]
    by_cases hmem : '=' ∈ s.toList
    · simp only [hmem, if_true]
    · have h2 : (cmdline_split s).2 = "" := by simp only [cmdline_split, if_neg hmem]
      simp only [hmem, if_false, h2]
      rfl
  have e1 : cmdline_split "FOO=bar" = ("FOO", "bar") := by decide
  have e2 : cmdline_split "FOO" = ("FOO", "") := by decide
  refine ⟨by simp [wpp_add_cmdline_define, pp_xstrdup, pp_xmalloc, plenty], ?_, e1, ?_, e2, ?_⟩
  · rw [key s]
    exact wpp_add_define_plenty_table _ _ _ _ _
  · rw [key "FOO=bar", e1]
    exact lookup_add_define_plenty "FOO" (some "bar") t (n + 1)
  · rw [key "FOO", e2]
    exact lookup_add_define_plenty "FOO" (some "") t (n + 1)

/-- C6: whatever the table, the arguments and the allocation outcomes, `wpp_add_define`
makes at least one allocation request; if every request it makes is served it returns 0,
and if one of them fails it returns 1 and the table is exactly the table before. -/
theorem wpp_add_define_atomic (name : String) (value : Option String) (t : Table)
    (h : Heap) :
    let r := wpp_add_define name value t h
    h.requests < r.2.2.requests ∧ r.2.2.outcome = h.outcome
    ∧ (if served h r.2.2 then r.1 = 0 else r.1 = 1 ∧ r.2.1 = t) := by
  cases hf : find_define t name with
  | some i =>
    cases ho : h.outcome h.requests <;>
      simp [wpp_add_define, hf, pp_xstrdup, pp_xmalloc, ho, served]
  | none =>
    cases h0 : h.outcome h.requests <;>
    cases h1 : h.outcome (h.requests + 1) <;>
    cases h2 : h.outcome (h.requests + 1 + 1) <;>
      simp [wpp_add_define, hf, pp_xstrdup, pp_xmalloc, h0, h1, h2, served,
        List.range_succ, Nat.add_assoc]

/-- C7, the code at the failing input: the copy of `"FOO=bar"` is served and the node
that `wpp_add_define` asks for is not.  The delegated `wpp_add_define` returns 1 and
stores nothing, and `wpp_add_cmdline_define` returns 0. -/
theorem wpp_add_cmdline_define_hides_failure :
    (wpp_add_cmdline_define "FOO=bar" [] { outcome := fun i => i != 1, requests := 0 }).1 = 0
    ∧ (wpp_add_cmdline_define "FOO=bar" []
        { outcome := fun i => i != 1, requests := 0 }).2.1 = []
    ∧ (wpp_add_define "FOO" (some "bar") []
        { outcome := fun i => i != 1, requests := 1 }).1 = 1 := by
  decide


/-! ## Lemmas on a run -/

theorem Grows.refl (p : Event → Prop) (w : World) : Grows p w w :=
  ⟨⟨[], by simp, by simp⟩, rfl, rfl, rfl, rfl⟩

theorem Grows.trans {p : Event → Prop} {a b c : World} (h1 : Grows p a b)
    (h2 : Grows p b c) : Grows p a c := by
  obtain ⟨⟨e1, ht1, hp1⟩, hc1, hi1, ho1, hs1⟩ := h1
  obtain ⟨⟨e2, ht2, hp2⟩, hc2, hi2, ho2, hs2⟩ := h2
  refine ⟨⟨e1 ++ e2, by rw [ht2, ht1, List.append_assoc], ?_⟩, hc2.trans hc1,
    hi2.trans hi1, ho2.trans ho1, hs2.trans hs1⟩
  intro e he
  rcases List.mem_append.mp he with h | h
  · exact hp1 e h
  · exact hp2 e h

theorem grows_collab (p : Event → Prop) (env : Env) (e : Event) (w : World) (he : p e) :
    Grows p w (collab env e w) :=
  ⟨⟨[e], rfl, by simpa using he⟩, rfl, rfl, rfl, rfl⟩

theorem grows_libc (p : Event → Prop) (e : Event) (w : World) (he : p e) :
    Grows p w (libc e w) :=
  ⟨⟨[e], rfl, by simpa using he⟩, rfl, rfl, rfl, rfl⟩

theorem new_events_append (w w2 : World) (evs : List Event)
    (h : w2.trace = w.trace ++ evs) : new_events w w2 = evs := by
  simp [new_events, h]

theorem added_defines_append (a b : List Event) :
    added_defines (a ++ b) = added_defines a ++ added_defines b := by
  induction a with
  | nil => rfl
  | cons e rest ih => cases e <;> simp [added_defines, ih]

theorem World.xstrdup_fst (env : Env) (s : String) (w : World) :
    (World.xstrdup env s w).1 = none ∨ (World.xstrdup env s w).1 = some s := by
  cases ho : w.heap.outcome w.heap.requests <;>
    simp [World.xstrdup, pp_xstrdup, pp_xmalloc, ho]

theorem World.xstrdup_trace (env : Env) (s : String) (w : World) :
    (World.xstrdup env s w).2.trace
      = w.trace ++ [Event.pp_xstrdup s (World.xstrdup env s w).1.isSome] := rfl

theorem World.xstrdup_table (env : Env) (s : String) (w : World) :
    (World.xstrdup env s w).2.cmdline_defines = w.cmdline_defines := rfl

theorem replay_append (env : Env) (n : Nat) (a b : List Event) (s : Int) :
    replay env n (a ++ b) s = replay env (n + a.length) b (replay env n a s) := by
  induction a generalizing n s with
  | nil => rfl
  | cons e rest ih =>
    have h : n + 1 + rest.length = n + (rest.length + 1) := by omega
    simp [replay, ih, h]

theorem call_events_setup (o : Nat → Bool) (vf : Bool) (r : Nat) (name value : String)
    (e : Bool) : ∀ x ∈ call_events o vf r name value e, x.is_setup = true := by
  rw [← List.all_eq_true]
  cases vf <;> simp [call_events, Event.is_setup]

theorem added_defines_call_events (o : Nat → Bool) (vf : Bool) (r : Nat)
    (name value : String) (e : Bool) :
    added_defines (call_events o vf r name value e) = [copy_pair o vf r name value] := by
  cases vf <;> simp [call_events, added_defines, copy_pair]

theorem define_calls_call_events (o : Nat → Bool) (vf : Bool) (r : Nat)
    (name value : String) (e : Bool) (rest : List Event) :
    define_calls (call_events o vf r name value e ++ rest)
      = ((copy_pair o vf r name value).1, (copy_pair o vf r name value).2, e,
          followed_by_mark rest) :: define_calls rest := by
  cases vf <;> simp [call_events, define_calls, copy_pair]

theorem mark_not_mem_call_events (o : Nat → Bool) (vf : Bool) (r : Nat)
    (name value : String) (e : Bool) :
    Event.set_def_special ∉ call_events o vf r name value e := by
  cases vf <;> simp [call_events]

/-- One `pp_add_define( pp_xstrdup(name), pp_xstrdup(value) )`: its three events, the two
requests it makes of the allocator, and what it leaves in `pp_status.state`. -/
theorem add_special_step (env : Env) (name value : String) (w : World) :
    (add_special env name value w).2.trace
      = w.trace ++ call_events w.heap.outcome env.value_first w.heap.requests name value
          (add_special env name value w).1
    ∧ (add_special env name value w).2.heap.outcome = w.heap.outcome
    ∧ (add_special env name value w).2.heap.requests = w.heap.requests + 2
    ∧ (add_special env name value w).2.cmdline_defines = w.cmdline_defines
    ∧ (add_special env name value w).2.ppy_in = w.ppy_in
    ∧ (add_special env name value w).2.ppy_out = w.ppy_out
    ∧ (add_special env name value w).2.pp_status_input = w.pp_status_input
    ∧ (add_special env name value w).2.pp_status_state
        = replay env w.trace.length
            (call_events w.heap.outcome env.value_first w.heap.requests name value
              (add_special env name value w).1) w.pp_status_state := by
  cases hvf : env.value_first <;>
  cases h0 : w.heap.outcome w.heap.requests <;>
  cases h1 : w.heap.outcome (w.heap.requests + 1) <;>
    simp [add_special, copy_args, World.xstrdup, pp_xstrdup, pp_xmalloc, pp_add_define,
      collab, copy, call_events, replay, Event.is_library, hvf, h0, h1]

theorem grows_xstrdup (env : Env) (s : String) (w : World) :
    Grows (fun e => e.is_setup = true) w (World.xstrdup env s w).2 :=
  ⟨⟨[Event.pp_xstrdup s (World.xstrdup env s w).1.isSome], rfl, by simp [Event.is_setup]⟩,
    rfl, rfl, rfl, rfl⟩

theorem grows_pp_add_define (env : Env) (n v : Option String) (w : World) :
    Grows (fun e => e.is_setup = true) w (pp_add_define env n v w).2 :=
  ⟨⟨[Event.pp_add_define n v (env.entry w.trace.length)], rfl, by simp [Event.is_setup]⟩,
    rfl, rfl, rfl, rfl⟩

theorem grows_add_special (env : Env) (name value : String) (w : World) :
    Grows (fun e => e.is_setup = true) w (add_special env name value w).2 := by
  obtain ⟨ht, _, _, hc, hi, ho, hs, _⟩ := add_special_step env name value w
  exact ⟨⟨_, ht, call_events_setup _ _ _ _ _ _⟩, hc, hi, ho, hs⟩

theorem grows_mark (env : Env) (name value : String) (w : World) :
    Grows (fun e => e.is_setup = true) w
      (if (add_special env name value w).1
        then libc Event.set_def_special (add_special env name value w).2
        else (add_special env name value w).2) := by
  cases (add_special env name value w).1
  · exact grows_add_special env name value w
  · exact (grows_add_special env name value w).trans (grows_libc _ _ _ rfl)

theorem grows_add_special_defines (env : Env) (w : World) :
    Grows (fun e => e.is_setup = true) w (add_special_defines env w) :=
  (((grows_add_special env "__DATE__" env.date w).trans
    (grows_add_special env "__TIME__" env.time _)).trans
    (grows_mark env "__FILE__" "" _)).trans (grows_mark env "__LINE__" "" _)

theorem grows_add_cmdline_defines_from (env : Env) (l : Table) (w : World) :
    Grows (fun e => e.is_setup = true) w (add_cmdline_defines_from env l w) := by
  induction l generalizing w with
  | nil => exact Grows.refl _ w
  | cons d rest ih =>
    cases hv : d.value with
    | none => simpa [add_cmdline_defines_from, hv] using ih w
    | some val =>
      simp only [add_cmdline_defines_from, hv]
      exact (grows_add_special env d.name val w).trans (ih _)

/-- Lines 176-177: the two functions that hand defines to the engine do nothing else. -/
theorem grows_setup (env : Env) (w : World) :
    Grows (fun e => e.is_setup = true) w
      (add_special_defines env (add_cmdline_defines env w)) :=
  (grows_add_cmdline_defines_from env w.cmdline_defines w).trans
    (grows_add_special_defines env _)

/-- The run in which `pp_push_define_state` fails: the push is all that happens. -/
theorem wpp_parse_push_failure (env : Env) (input : Option String) (output : FILE)
    (w : World) (hpush : env.push_ret ≠ 0) :
    (wpp_parse env input output w).1 = env.push_ret
    ∧ (wpp_parse env input output w).2.trace
        = w.trace ++ [Event.pp_push_define_state env.push_ret]
    ∧ (wpp_parse env input output w).2.cmdline_defines = w.cmdline_defines
    ∧ (wpp_parse env input output w).2.ppy_out = w.ppy_out := by
  simp [wpp_parse, pp_push_define_state, hpush, collab]

/-- The world when lines 170-177 are done and the push has returned 0. -/
theorem prepared_grows (env : Env) (w : World) :
    ∃ evs, (∀ e ∈ evs, e.is_setup = true)
      ∧ (add_special_defines env (add_cmdline_defines env
          (collab env (Event.pp_push_define_state 0)
            { w with pp_status_input := none, pp_status_state := 0 }))).trace
          = w.trace ++ Event.pp_push_define_state 0 :: evs
      ∧ (add_special_defines env (add_cmdline_defines env
          (collab env (Event.pp_push_define_state 0)
            { w with pp_status_input := none, pp_status_state := 0 }))).cmdline_defines
          = w.cmdline_defines
      ∧ (add_special_defines env (add_cmdline_defines env
          (collab env (Event.pp_push_define_state 0)
            { w with pp_status_input := none, pp_status_state := 0 }))).ppy_out
          = w.ppy_out := by
  obtain ⟨⟨evs, ht, hs⟩, hc, _, ho, _⟩ := grows_setup env
    (collab env (Event.pp_push_define_state 0)
      { w with pp_status_input := none, pp_status_state := 0 })
  refine ⟨evs, hs, ?_, hc, ho⟩
  rw [ht]
  show (w.trace ++ [Event.pp_push_define_state 0]) ++ evs = _
  simp

/-- The run in which the push succeeds and the named input cannot be opened. -/
theorem wpp_parse_open_failure (env : Env) (path : String) (output : FILE) (w : World)
    (hpush : env.push_ret = 0) (hopen : env.fopen_ok path = false) :
    ∃ evs, (∀ e ∈ evs, e.is_setup = true)
      ∧ (wpp_parse env (some path) output w).1 = 2
      ∧ (wpp_parse env (some path) output w).2.trace
          = w.trace ++ Event.pp_push_define_state 0 :: evs
              ++ [Event.fopen path false, Event.ppy_error ("Could not open " ++ path ++ "\n")]
      ∧ (wpp_parse env (some path) output w).2.cmdline_defines = w.cmdline_defines
      ∧ (wpp_parse env (some path) output w).2.ppy_out = w.ppy_out := by
  obtain ⟨evs, hs, ht, hc, ho⟩ := prepared_grows env w
  have hA : wpp_parse env (some path) output w
      = (2, ppy_error env ("Could not open " ++ path ++ "\n")
          (libc (Event.fopen path false)
            { add_special_defines env (add_cmdline_defines env
                (collab env (Event.pp_push_define_state 0)
                  { w with pp_status_input := none, pp_status_state := 0 }))
              with ppy_in := none })) := by
    simp [wpp_parse, pp_push_define_state, hpush, open_input, hopen]
  rw [hA]
  refine ⟨evs, hs, rfl, ?_, hc, ho⟩
  show ((add_special_defines env (add_cmdline_defines env
      (collab env (Event.pp_push_define_state 0)
        { w with pp_status_input := none, pp_status_state := 0 }))).trace
      ++ [Event.fopen path false]) ++ [Event.ppy_error ("Could not open " ++ path ++ "\n")] = _
  rw [ht]
  simp


theorem quiet_xstrdup (env : Env) (hq : ∀ n s, env.status n s = s) (s : String) (w : World) :
    (World.xstrdup env s w).2.pp_status_state = w.pp_status_state := by
  simp [World.xstrdup, collab, hq]

theorem replay_quiet (env : Env) (hq : ∀ n s, env.status n s = s) (n : Nat)
    (evs : List Event) (s : Int) : replay env n evs s = s := by
  induction evs generalizing n s with
  | nil => rfl
  | cons e rest ih => simp [replay, hq, ih]

theorem quiet_add_special (env : Env) (hq : ∀ n s, env.status n s = s) (name value : String)
    (w : World) : (add_special env name value w).2.pp_status_state = w.pp_status_state := by
  rw [(add_special_step env name value w).2.2.2.2.2.2.2, replay_quiet env hq]

theorem quiet_mark (env : Env) (hq : ∀ n s, env.status n s = s) (name value : String)
    (w : World) :
    (if (add_special env name value w).1
      then libc Event.set_def_special (add_special env name value w).2
      else (add_special env name value w).2).pp_status_state = w.pp_status_state := by
  cases (add_special env name value w).1
  · exact quiet_add_special env hq name value w
  · exact quiet_add_special env hq name value w

theorem quiet_add_special_defines (env : Env) (hq : ∀ n s, env.status n s = s) (w : World) :
    (add_special_defines env w).pp_status_state = w.pp_status_state := by
  unfold add_special_defines
  simp only []
  rw [quiet_mark env hq, quiet_mark env hq, quiet_add_special env hq,
    quiet_add_special env hq]

theorem quiet_add_cmdline_defines_from (env : Env) (hq : ∀ n s, env.status n s = s)
    (l : Table) (w : World) :
    (add_cmdline_defines_from env l w).pp_status_state = w.pp_status_state := by
  induction l generalizing w with
  | nil => rfl
  | cons d rest ih =>
    cases hv : d.value with
    | none => simpa [add_cmdline_defines_from, hv] using ih w
    | some val =>
      simp only [add_cmdline_defines_from, hv]
      rw [ih]
      exact quiet_add_special env hq d.name val w

theorem tracks_refl (env : Env) (w : World) : Tracks env w w :=
  ⟨[], by simp, rfl⟩

theorem tracks_trans {env : Env} {a b c : World} (h1 : Tracks env a b) (h2 : Tracks env b c) :
    Tracks env a c := by
  obtain ⟨e1, ht1, hs1⟩ := h1
  obtain ⟨e2, ht2, hs2⟩ := h2
  refine ⟨e1 ++ e2, by rw [ht2, ht1, List.append_assoc], ?_⟩
  rw [hs2, hs1, ht1, replay_append, List.length_append]

theorem tracks_add_special (env : Env) (name value : String) (w : World) :
    Tracks env w (add_special env name value w).2 := by
  obtain ⟨ht, _, _, _, _, _, _, hst⟩ := add_special_step env name value w
  exact ⟨_, ht, hst⟩

theorem tracks_mark (env : Env) (name value : String) (w : World) :
    Tracks env w
      (if (add_special env name value w).1
        then libc Event.set_def_special (add_special env name value w).2
        else (add_special env name value w).2) := by
  cases (add_special env name value w).1
  · exact tracks_add_special env name value w
  · exact tracks_trans (tracks_add_special env name value w)
      ⟨[Event.set_def_special], rfl, rfl⟩

theorem tracks_add_special_defines (env : Env) (w : World) :
    Tracks env w (add_special_defines env w) :=
  tracks_trans (tracks_trans (tracks_trans (tracks_add_special env "__DATE__" env.date w)
    (tracks_add_special env "__TIME__" env.time _))
    (tracks_mark env "__FILE__" "" _)) (tracks_mark env "__LINE__" "" _)

theorem tracks_add_cmdline_defines_from (env : Env) (l : Table) (w : World) :
    Tracks env w (add_cmdline_defines_from env l w) := by
  induction l generalizing w with
  | nil => exact tracks_refl env w
  | cons d rest ih =>
    cases hv : d.value with
    | none => simpa [add_cmdline_defines_from, hv] using ih w
    | some val =>
      simp only [add_cmdline_defines_from, hv]
      exact tracks_trans (tracks_add_special env d.name val w) (ih _)

/-- When lines 170-177 are done and the push has returned 0, `pp_status.state` is what
the calls made since the 0 of line 171 leave. -/
theorem tracks_prepared (env : Env) (w : World) :
    ∃ evs, (add_special_defines env (add_cmdline_defines env
        (collab env (Event.pp_push_define_state 0)
          { w with pp_status_input := none, pp_status_state := 0 }))).trace
        = w.trace ++ evs
      ∧ (add_special_defines env (add_cmdline_defines env
        (collab env (Event.pp_push_define_state 0)
          { w with pp_status_input := none, pp_status_state := 0 }))).pp_status_state
        = replay env w.trace.length evs 0 := by
  have h0 : Tracks env { w with pp_status_input := none, pp_status_state := 0 }
      (collab env (Event.pp_push_define_state 0)
        { w with pp_status_input := none, pp_status_state := 0 }) :=
    ⟨[Event.pp_push_define_state 0], rfl, rfl⟩
  exact tracks_trans (tracks_trans h0 (tracks_add_cmdline_defines_from env _ _))
    (tracks_add_special_defines env _)

/-- When no call into the library touches `pp_status.state`, it is still the 0 of line 171
when lines 170-177 are done. -/
theorem quiet_prepared (env : Env) (hq : ∀ n s, env.status n s = s) (w : World) :
    (add_special_defines env (add_cmdline_defines env
      (collab env (Event.pp_push_define_state 0)
        { w with pp_status_input := none, pp_status_state := 0 }))).pp_status_state = 0 := by
  rw [quiet_add_special_defines env hq]
  unfold add_cmdline_defines
  rw [quiet_add_cmdline_defines_from env hq]
  simp [collab, hq]

/-- The run in which the push succeeds and there is an input stream: the events of the
run, and the status returned, `d` being the value of `pp_status.state` when `ppy_parse`
returns. -/
theorem wpp_parse_completes (env : Env) (input : Option String) (output : FILE) (w : World)
    (hpush : env.push_ret = 0) (hopen : opens env input = true) :
    ∃ evs d, (∀ e ∈ evs, e.is_setup = true)
      ∧ (wpp_parse env input output w).1
          = (if env.parse_ret = 0 ∧ d ≠ 0 then d else env.parse_ret)
      ∧ (wpp_parse env input output w).2.trace
          = w.trace ++ Event.pp_push_define_state 0 :: evs
              ++ input.toList.map (fun path => Event.fopen path true)
              ++ [Event.fprintf output ("# 1 \"" ++ input.getD "" ++ "\" 1\n"),
                  Event.ppy_parse (some output) env.parse_written env.parse_ret d]
              ++ input.toList.map (fun path => Event.fclose (FILE.fopened path))
              ++ [Event.pp_pop_define_state]
      ∧ (wpp_parse env input output w).2.cmdline_defines = w.cmdline_defines
      ∧ ((∀ n s, env.status n s = s) → d = 0)
      ∧ d = replay env w.trace.length
          (Event.pp_push_define_state 0 :: evs
            ++ input.toList.map (fun path => Event.fopen path true)
            ++ [Event.fprintf output ("# 1 \"" ++ input.getD "" ++ "\" 1\n"),
                Event.ppy_parse (some output) env.parse_written env.parse_ret d]) 0 := by
  obtain ⟨evs, hs, ht, hc, _⟩ := prepared_grows env w
  obtain ⟨evs2, ht2, hst⟩ := tracks_prepared env w
  have hev : evs2 = Event.pp_push_define_state 0 :: evs :=
    List.append_cancel_left (ht2.symm.trans ht)
  rw [hev] at hst
  clear ht2 hev
  generalize hW : add_special_defines env (add_cmdline_defines env
      (collab env (Event.pp_push_define_state 0)
        { w with pp_status_input := none, pp_status_state := 0 })) = W at ht hc hst
  have hq0 : (∀ n s, env.status n s = s) → W.pp_status_state = 0 := by
    intro hq
    rw [← hW]
    exact quiet_prepared env hq w
  cases input with
  | none =>
    have hA : wpp_parse env none output w
        = (if env.parse_ret = 0 ∧ (ppy_parse env (libc (Event.fprintf output "# 1 \"\" 1\n")
              { W with ppy_in := some FILE.stdin, pp_status_input := none,
                       ppy_out := some output })).2.pp_status_state ≠ 0
            then (ppy_parse env (libc (Event.fprintf output "# 1 \"\" 1\n")
              { W with ppy_in := some FILE.stdin, pp_status_input := none,
                       ppy_out := some output })).2.pp_status_state
            else env.parse_ret,
           pp_pop_define_state env (ppy_parse env (libc (Event.fprintf output "# 1 \"\" 1\n")
              { W with ppy_in := some FILE.stdin, pp_status_input := none,
                       ppy_out := some output })).2) := by
      rw [← hW]
      simp [wpp_parse, pp_push_define_state, hpush, open_input, ppy_parse]
    rw [hA]
    refine ⟨evs, _, hs, rfl, ?_, hc, ?_, ?_⟩
    · show ((W.trace ++ [Event.fprintf output "# 1 \"\" 1\n"]) ++ [_]) ++ [_] = _
      rw [ht]
      simp [ppy_parse, libc]
    · intro hq
      show env.status _ W.pp_status_state = 0
      rw [hq, hq0 hq]
    · show env.status (W.trace ++ [Event.fprintf output "# 1 \"\" 1\n"]).length
        W.pp_status_state = _
      rw [ht, hst]
      simp [replay_append, replay, Event.is_library, Nat.add_assoc]
      congr 1
      omega
  | some path =>
    have hopen2 : env.fopen_ok path = true := hopen
    have hA : wpp_parse env (some path) output w
        = (if env.parse_ret = 0 ∧ (ppy_parse env
              (libc (Event.fprintf output ("# 1 \"" ++ path ++ "\" 1\n"))
                { libc (Event.fopen path true) { W with ppy_in := some (FILE.fopened path) }
                  with pp_status_input := some path, ppy_out := some output })).2.pp_status_state
                ≠ 0
            then (ppy_parse env
              (libc (Event.fprintf output ("# 1 \"" ++ path ++ "\" 1\n"))
                { libc (Event.fopen path true) { W with ppy_in := some (FILE.fopened path) }
                  with pp_status_input := some path, ppy_out := some output })).2.pp_status_state
            else env.parse_ret,
           pp_pop_define_state env (libc (Event.fclose (FILE.fopened path)) (ppy_parse env
              (libc (Event.fprintf output ("# 1 \"" ++ path ++ "\" 1\n"))
                { libc (Event.fopen path true) { W with ppy_in := some (FILE.fopened path) }
                  with pp_status_input := some path, ppy_out := some output })).2)) := by
      rw [← hW]
      simp [wpp_parse, pp_push_define_state, hpush, open_input, hopen2, ppy_parse, libc]
    rw [hA]
    refine ⟨evs, _, hs, rfl, ?_, hc, ?_, ?_⟩
    · show ((((W.trace ++ [Event.fopen path true])
          ++ [Event.fprintf output ("# 1 \"" ++ path ++ "\" 1\n")]) ++ [_]) ++ [_]) ++ [_] = _
      rw [ht]
      simp [ppy_parse, libc]
    · intro hq
      show env.status _ W.pp_status_state = 0
      rw [hq, hq0 hq]
    · show env.status ((W.trace ++ [Event.fopen path true])
          ++ [Event.fprintf output ("# 1 \"" ++ path ++ "\" 1\n")]).length
        W.pp_status_state = _
      rw [ht, hst]
      simp [replay_append, replay, Event.is_library, Nat.add_assoc]
      congr 1
      omega

theorem is_parse_of_is_setup {e : Event} (h : e.is_setup = true) : e.is_parse = false := by
  cases e <;> simp_all [Event.is_setup, Event.is_parse]

theorem is_output_of_is_setup {e : Event} (h : e.is_setup = true) : e.is_output = false := by
  cases e <;> simp_all [Event.is_setup, Event.is_output]

theorem filter_is_parse_setup {evs : List Event} (h : ∀ e ∈ evs, e.is_setup = true) :
    evs.filter Event.is_parse = [] := by
  rw [List.filter_eq_nil_iff]
  intro e he
  simp [is_parse_of_is_setup (h e he)]

theorem written_of_no_output (f : FILE) {evs : List Event}
    (h : ∀ e ∈ evs, e.is_output = false) : written f evs = "" := by
  induction evs with
  | nil => rfl
  | cons e rest ih =>
    have he := h e (List.mem_cons_self _ _)
    have hr := ih (fun x hx => h x (List.mem_cons_of_mem _ hx))
    cases e <;> simp_all [written, Event.is_output]

/-! ## The claims on a run -/

/-- C8, the code at the failing input: the push returns 0 and `fopen` returns `NULL` for
`missing.c`.  The run returns 2 at line 183 and `pp_pop_define_state` has not been
called; with the same push and an input that opens it is called once. -/
theorem wpp_parse_open_failure_skips_pop :
    (wpp_parse { calm with fopen_ok := fun _ => false } (some "missing.c") (FILE.given 0)
        (World.init [])).1 = 2
    ∧ Event.pp_push_define_state 0 ∈
        (wpp_parse { calm with fopen_ok := fun _ => false } (some "missing.c") (FILE.given 0)
          (World.init [])).2.trace
    ∧ pops (wpp_parse { calm with fopen_ok := fun _ => false } (some "missing.c")
        (FILE.given 0) (World.init [])).2.trace = 0
    ∧ pops (wpp_parse calm (some "missing.c") (FILE.given 0) (World.init [])).2.trace = 1 := by
  decide

/-- C9: when the push has succeeded and the input path cannot be opened for reading,
`wpp_parse` returns 2, no `fprintf` and no `ppy_parse` call is among the events of the
run, so that nothing is written to `output`, and `ppy_out` is not even assigned. -/
theorem wpp_parse_unopened_input (env : Env) (path : String) (output : FILE) (w : World)
    (hpush : env.push_ret = 0) (hopen : env.fopen_ok path = false) :
    (wpp_parse env (some path) output w).1 = 2
    ∧ (∀ e ∈ new_events w (wpp_parse env (some path) output w).2,
        e.is_output = false ∧ e.is_parse = false)
    ∧ written output (new_events w (wpp_parse env (some path) output w).2) = ""
    ∧ (wpp_parse env (some path) output w).2.ppy_out = w.ppy_out := by
  obtain ⟨evs, hs, hr, ht, _, ho⟩ := wpp_parse_open_failure env path output w hpush hopen
  have hall : ∀ e ∈ new_events w (wpp_parse env (some path) output w).2,
      e.is_output = false ∧ e.is_parse = false := by
    rw [new_events_append _ _ _ (by rw [ht, List.append_assoc])]
    intro e he
    simp only [List.cons_append, List.mem_cons, List.mem_append, List.mem_singleton,
      List.not_mem_nil, or_false] at he
    rcases he with h | h | h | h
    · subst h
      exact ⟨rfl, rfl⟩
    · exact ⟨is_output_of_is_setup (hs e h), is_parse_of_is_setup (hs e h)⟩
    · subst h
      exact ⟨rfl, rfl⟩
    · subst h
      exact ⟨rfl, rfl⟩
  exact ⟨hr, hall, written_of_no_output output (fun e he => (hall e he).1), ho⟩

/-- C9 at a run with one command-line define whose input does not open. -/
theorem wpp_parse_unopened_input_witness :
    ({ calm with fopen_ok := fun _ => false } : Env).push_ret = 0
    ∧ ({ calm with fopen_ok := fun _ => false } : Env).fopen_ok "missing.c" = false
    ∧ (wpp_parse { calm with fopen_ok := fun _ => false } (some "missing.c") (FILE.given 0)
        (World.init [⟨"A", some "1"⟩])).1 = 2
    ∧ written (FILE.given 0)
        (new_events (World.init [⟨"A", some "1"⟩])
          (wpp_parse { calm with fopen_ok := fun _ => false } (some "missing.c")
            (FILE.given 0) (World.init [⟨"A", some "1"⟩])).2) = "" :=
  ⟨rfl, rfl,
   (wpp_parse_unopened_input { calm with fopen_ok := fun _ => false } "missing.c"
      (FILE.given 0) (World.init [⟨"A", some "1"⟩]) rfl rfl).1,
   (wpp_parse_unopened_input { calm with fopen_ok := fun _ => false } "missing.c"
      (FILE.given 0) (World.init [⟨"A", some "1"⟩]) rfl rfl).2.2.1⟩

/-- C10: when the push succeeds and there is an input stream, `ppy_parse` is called once.
With `r` what it returns and `d` the value of `pp_status.state` when it returns,
`wpp_parse` returns `r` when `r` is not 0 and `d` when it is, so it returns 0 exactly
when `r` and `d` are both 0.  And `d` is what the run accumulated: the value that the
calls into the library made by this run, from the push to `ppy_parse` itself, leave one
after the other, starting from the 0 of line 171 and not from what `pp_status.state`
held before the run. -/
theorem wpp_parse_status (env : Env) (input : Option String) (output : FILE) (w : World)
    (hpush : env.push_ret = 0) (hopen : opens env input = true) :
    ∃ pre post d,
      new_events w (wpp_parse env input output w).2
        = pre ++ Event.ppy_parse (some output) env.parse_written env.parse_ret d :: post
      ∧ (∀ e ∈ pre ++ post, e.is_parse = false)
      ∧ d = replay env w.trace.length
          (pre ++ [Event.ppy_parse (some output) env.parse_written env.parse_ret d]) 0
      ∧ (new_events w (wpp_parse env input output w).2).filter Event.is_parse
          = [Event.ppy_parse (some output) env.parse_written env.parse_ret d]
      ∧ (wpp_parse env input output w).1 = (if env.parse_ret ≠ 0 then env.parse_ret else d)
      ∧ ((wpp_parse env input output w).1 = 0 ↔ env.parse_ret = 0 ∧ d = 0)
      ∧ ((∀ n s, env.status n s = s) → d = 0) := by
  obtain ⟨evs, d, hs, hr, ht, _, hq, hrep⟩ :=
    wpp_parse_completes env input output w hpush hopen
  have hret : (wpp_parse env input output w).1
      = (if env.parse_ret ≠ 0 then env.parse_ret else d) := by
    rw [hr]
    by_cases h0 : env.parse_ret = 0
    · by_cases hd : d = 0 <;> simp [h0, hd]
    · simp [h0]
  have hne : new_events w (wpp_parse env input output w).2
      = (Event.pp_push_define_state 0 :: evs
          ++ (input.toList.map (fun path => Event.fopen path true)
            ++ [Event.fprintf output ("# 1 \"" ++ input.getD "" ++ "\" 1\n")]))
        ++ Event.ppy_parse (some output) env.parse_written env.parse_ret d
          :: (input.toList.map (fun path => Event.fclose (FILE.fopened path))
            ++ [Event.pp_pop_define_state]) :=
    new_events_append _ _ _ (by rw [ht]; simp)
  have hno : ∀ e ∈ (Event.pp_push_define_state 0 :: evs
          ++ (input.toList.map (fun path => Event.fopen path true)
            ++ [Event.fprintf output ("# 1 \"" ++ input.getD "" ++ "\" 1\n")]))
        ++ (input.toList.map (fun path => Event.fclose (FILE.fopened path))
            ++ [Event.pp_pop_define_state]), e.is_parse = false := by
    intro e he
    rcases List.mem_append.mp he with h | h
    · rcases List.mem_append.mp h with h | h
      · rcases List.mem_cons.mp h with h | h
        · subst h
          rfl
        · exact is_parse_of_is_setup (hs e h)
      · rcases List.mem_append.mp h with h | h
        · obtain ⟨p, _, rfl⟩ := List.mem_map.mp h
          rfl
        · rw [List.mem_singleton] at h
          subst h
          rfl
    · rcases List.mem_append.mp h with h | h
      · obtain ⟨p, _, rfl⟩ := List.mem_map.mp h
        rfl
      · rw [List.mem_singleton] at h
        subst h
        rfl
  refine ⟨_, _, d, hne, hno, ?_, ?_, hret, ?_, hq⟩
  · refine hrep.trans ?_
    congr 1
    simp
  · rw [hne, List.filter_append, List.filter_cons]
    have h1 := List.filter_eq_nil_iff.mpr
      (fun e he => by simpa using hno e (List.mem_append_left _ he))
    have h2 := List.filter_eq_nil_iff.mpr
      (fun e he => by simpa using hno e (List.mem_append_right _ he))
    rw [h1, h2]
    rfl
  · rw [hret]
    by_cases h0 : env.parse_ret = 0 <;> simp [h0]

/-- C10 at a run on `stdin` in which the engine returns 0 and every call into the library
adds one to `pp_status.state`, which held 5 before the run: the push, the eight copies,
the four `pp_add_define` calls and `ppy_parse` make the run return 14. -/
theorem wpp_parse_status_witness :
    ({ calm with status := fun _ s => s + 1 } : Env).push_ret = 0
    ∧ opens { calm with status := fun _ s => s + 1 } none = true
    ∧ (wpp_parse { calm with status := fun _ s => s + 1 } none (FILE.given 0)
        { World.init [] with pp_status_state := 5 }).1 = 14
    ∧ ∃ pre post d, new_events { World.init [] with pp_status_state := 5 }
          (wpp_parse { calm with status := fun _ s => s + 1 } none (FILE.given 0)
            { World.init [] with pp_status_state := 5 }).2
          = pre ++ Event.ppy_parse (some (FILE.given 0)) "" 0 d :: post
        ∧ d = replay { calm with status := fun _ s => s + 1 } 0
            (pre ++ [Event.ppy_parse (some (FILE.given 0)) "" 0 d]) 0 :=
  ⟨rfl, rfl, by decide,
   (wpp_parse_status { calm with status := fun _ s => s + 1 } none (FILE.given 0)
      { World.init [] with pp_status_state := 5 } rfl rfl).imp
     (fun _ h => h.imp (fun _ h => h.imp (fun _ h => ⟨h.1, h.2.2.1⟩)))⟩

/-! ## Deleting a name that is not in the table -/

/-- C16: when no entry of the table is named `name`, `wpp_del_define(name)` leaves the
table as it is: the same entries in the same order with the same names and values. -/
theorem wpp_del_define_absent (name : String) (t : Table) (habs : name ∉ names t) :
    wpp_del_define name t = t := by
  simp [wpp_del_define, find_define_eq_none.mpr habs]

/-- C16 at a table of two entries, one of them already without a value. -/
theorem wpp_del_define_absent_witness :
    "C" ∉ names [⟨"B", some "2"⟩, ⟨"A", none⟩]
    ∧ wpp_del_define "C" [⟨"B", some "2"⟩, ⟨"A", none⟩] = [⟨"B", some "2"⟩, ⟨"A", none⟩] :=
  ⟨by decide, wpp_del_define_absent "C" [⟨"B", some "2"⟩, ⟨"A", none⟩] (by decide)⟩

/-! ## A run whose push fails -/

/-- C12: when `pp_push_define_state` returns a nonzero `c`, `wpp_parse` returns `c` and
the push is the only thing the run did: no `pp_add_define` call, no `fopen`, no text on
`output`, no `ppy_parse`, no `pp_pop_define_state`, and `ppy_out` is not assigned. -/
theorem wpp_parse_setup_failure (env : Env) (input : Option String) (output : FILE)
    (w : World) (hpush : env.push_ret ≠ 0) :
    (wpp_parse env input output w).1 = env.push_ret
    ∧ new_events w (wpp_parse env input output w).2
        = [Event.pp_push_define_state env.push_ret]
    ∧ added_defines (new_events w (wpp_parse env input output w).2) = []
    ∧ (∀ e ∈ new_events w (wpp_parse env input output w).2,
        e.is_setup = false ∧ e.is_output = false ∧ e.is_parse = false
        ∧ ∀ path ok, e ≠ Event.fopen path ok)
    ∧ written output (new_events w (wpp_parse env input output w).2) = ""
    ∧ pops (new_events w (wpp_parse env input output w).2) = 0
    ∧ (wpp_parse env input output w).2.ppy_out = w.ppy_out
    ∧ (wpp_parse env input output w).2.ppy_in = w.ppy_in := by
  obtain ⟨hr, ht, _, ho⟩ := wpp_parse_push_failure env input output w hpush
  have hne := new_events_append _ _ _ ht
  rw [hne]
  refine ⟨hr, rfl, rfl, ?_, rfl, ?_, ho, ?_⟩
  · intro e he
    rw [List.mem_singleton] at he
    subst he
    exact ⟨rfl, rfl, rfl, fun _ _ h => Event.noConfusion h⟩
  · simp [pops]
  · simp [wpp_parse, pp_push_define_state, hpush, collab]

/-- C12 at a run on a table with one define, the push returning 7. -/
theorem wpp_parse_setup_failure_witness :
    ({ calm with push_ret := 7 } : Env).push_ret ≠ 0
    ∧ (wpp_parse { calm with push_ret := 7 } (some "a.c") (FILE.given 0)
        (World.init [⟨"A", some "1"⟩])).1 = 7
    ∧ new_events (World.init [⟨"A", some "1"⟩])
        (wpp_parse { calm with push_ret := 7 } (some "a.c") (FILE.given 0)
          (World.init [⟨"A", some "1"⟩])).2 = [Event.pp_push_define_state 7] :=
  ⟨by decide,
   (wpp_parse_setup_failure { calm with push_ret := 7 } (some "a.c") (FILE.given 0)
      (World.init [⟨"A", some "1"⟩]) (by decide)).1,
   (wpp_parse_setup_failure { calm with push_ret := 7 } (some "a.c") (FILE.given 0)
      (World.init [⟨"A", some "1"⟩]) (by decide)).2.1⟩


/-! ## The leading marker -/

theorem written_append (f : FILE) (a b : List Event) :
    written f (a ++ b) = written f a ++ written f b := by
  induction a with
  | nil => simp [written]
  | cons e rest ih => cases e <;> simp [written, ih, String.append_assoc]

/-- C13: when the push succeeds and there is an input stream, the events of the run are
some events that put nothing on a stream, then the `fprintf` of the marker line
`# 1 "<path>" 1` on `output` (with the empty string for `<path>` when `input` is `NULL`),
then at once the one `ppy_parse` call, then events that put nothing on a stream.  The
text on `output` is the marker line followed by what the engine wrote; and when the
engine writes nothing and returns 0 and `pp_status.state` is 0 at its return, the run
returns 0 and the text on `output` is the marker line. -/
theorem wpp_parse_marker (env : Env) (input : Option String) (output : FILE) (w : World)
    (hpush : env.push_ret = 0) (hopen : opens env input = true) :
    ∃ pre post d,
      new_events w (wpp_parse env input output w).2
        = pre ++ [Event.fprintf output ("# 1 \"" ++ input.getD "" ++ "\" 1\n"),
                  Event.ppy_parse (some output) env.parse_written env.parse_ret d] ++ post
      ∧ (∀ e ∈ pre, e.is_output = false) ∧ (∀ e ∈ post, e.is_output = false)
      ∧ written output (new_events w (wpp_parse env input output w).2)
          = "# 1 \"" ++ input.getD "" ++ "\" 1\n" ++ env.parse_written
      ∧ (input = none → written output (new_events w (wpp_parse env input output w).2)
          = "# 1 \"\" 1\n" ++ env.parse_written)
      ∧ (env.parse_written = "" → env.parse_ret = 0 → d = 0 →
          (wpp_parse env input output w).1 = 0
          ∧ written output (new_events w (wpp_parse env input output w).2)
              = "# 1 \"" ++ input.getD "" ++ "\" 1\n")
      ∧ ((∀ n s, env.status n s = s) → d = 0) := by
  obtain ⟨evs, d, hs, hr, ht, _, hq, _⟩ := wpp_parse_completes env input output w hpush hopen
  have hne : new_events w (wpp_parse env input output w).2
      = (Event.pp_push_define_state 0 :: evs
            ++ input.toList.map (fun path => Event.fopen path true))
          ++ [Event.fprintf output ("# 1 \"" ++ input.getD "" ++ "\" 1\n"),
              Event.ppy_parse (some output) env.parse_written env.parse_ret d]
          ++ (input.toList.map (fun path => Event.fclose (FILE.fopened path))
            ++ [Event.pp_pop_define_state]) :=
    new_events_append _ _ _ (by rw [ht]; simp only [List.append_assoc])
  have hpre : ∀ e ∈ Event.pp_push_define_state 0 :: evs
      ++ input.toList.map (fun path => Event.fopen path true), e.is_output = false := by
    intro e he
    simp only [List.cons_append, List.mem_cons, List.mem_append, List.mem_map] at he
    rcases he with h | h | ⟨p, _, h⟩
    · subst h
      rfl
    · exact is_output_of_is_setup (hs e h)
    · subst h
      rfl
  have hpost : ∀ e ∈ input.toList.map (fun path => Event.fclose (FILE.fopened path))
      ++ [Event.pp_pop_define_state], e.is_output = false := by
    intro e he
    simp only [List.mem_append, List.mem_map, List.mem_singleton] at he
    rcases he with ⟨p, _, h⟩ | h
    · subst h
      rfl
    · subst h
      rfl
  have hw : written output (new_events w (wpp_parse env input output w).2)
      = "# 1 \"" ++ input.getD "" ++ "\" 1\n" ++ env.parse_written := by
    rw [hne, written_append, written_append, written_of_no_output output hpre,
      written_of_no_output output hpost]
    simp [written]
  refine ⟨_, _, d, hne, hpre, hpost, hw, ?_, ?_, hq⟩
  · intro hin
    rw [hw, hin]
    rfl
  · intro hwr h0 hd
    refine ⟨?_, ?_⟩
    · rw [hr]
      simp [h0, hd]
    · rw [hw, hwr]
      simp

/-- C13 at a run on an empty file `a.c` with a quiet engine. -/
theorem wpp_parse_marker_witness :
    calm.push_ret = 0 ∧ opens calm (some "a.c") = true
    ∧ (wpp_parse calm (some "a.c") (FILE.given 0) (World.init [])).1 = 0
    ∧ written (FILE.given 0) (new_events (World.init [])
        (wpp_parse calm (some "a.c") (FILE.given 0) (World.init [])).2) = "# 1 \"a.c\" 1\n"
    ∧ ∃ pre post d, new_events (World.init [])
          (wpp_parse calm (some "a.c") (FILE.given 0) (World.init [])).2
        = pre ++ [Event.fprintf (FILE.given 0) ("# 1 \"" ++ "a.c" ++ "\" 1\n"),
                  Event.ppy_parse (some (FILE.given 0)) "" 0 d] ++ post :=
  ⟨rfl, rfl, by decide, by decide,
   (wpp_parse_marker calm (some "a.c") (FILE.given 0) (World.init []) rfl rfl).imp
     (fun _ h => h.imp (fun _ h2 => h2.imp (fun _ h3 => h3.1)))⟩


/-! ## The run into a temporary file -/

/-- The three ways a run of `wpp_parse` can go, with the events of each. -/
theorem wpp_parse_cases (env : Env) (input : Option String) (output : FILE) (w : World) :
    (wpp_parse env input output w).2.trace
        = w.trace ++ new_events w (wpp_parse env input output w).2
    ∧ (wpp_parse env input output w).2.cmdline_defines = w.cmdline_defines
    ∧ ((env.push_ret ≠ 0 ∧ (wpp_parse env input output w).1 = env.push_ret
          ∧ new_events w (wpp_parse env input output w).2
              = [Event.pp_push_define_state env.push_ret])
      ∨ (env.push_ret = 0 ∧ (wpp_parse env input output w).1 = 2
          ∧ ∃ path evs, input = some path ∧ env.fopen_ok path = false
            ∧ (∀ e ∈ evs, e.is_setup = true)
            ∧ new_events w (wpp_parse env input output w).2
                = Event.pp_push_define_state 0 :: evs
                  ++ [Event.fopen path false,
                      Event.ppy_error ("Could not open " ++ path ++ "\n")])
      ∨ (env.push_ret = 0 ∧ opens env input = true
          ∧ ∃ evs d, (∀ e ∈ evs, e.is_setup = true)
            ∧ (wpp_parse env input output w).1
                = (if env.parse_ret = 0 ∧ d ≠ 0 then d else env.parse_ret)
            ∧ new_events w (wpp_parse env input output w).2
                = Event.pp_push_define_state 0 :: evs
                  ++ input.toList.map (fun path => Event.fopen path true)
                  ++ [Event.fprintf output ("# 1 \"" ++ input.getD "" ++ "\" 1\n"),
                      Event.ppy_parse (some output) env.parse_written env.parse_ret d]
                  ++ input.toList.map (fun path => Event.fclose (FILE.fopened path))
                  ++ [Event.pp_pop_define_state])) := by
  by_cases hpush : env.push_ret = 0
  · cases hop : opens env input with
    | true =>
      obtain ⟨evs, d, hs, hr, ht, hc, _⟩ := wpp_parse_completes env input output w hpush hop
      have hne : new_events w (wpp_parse env input output w).2
          = Event.pp_push_define_state 0 :: evs
              ++ input.toList.map (fun path => Event.fopen path true)
              ++ [Event.fprintf output ("# 1 \"" ++ input.getD "" ++ "\" 1\n"),
                  Event.ppy_parse (some output) env.parse_written env.parse_ret d]
              ++ input.toList.map (fun path => Event.fclose (FILE.fopened path))
              ++ [Event.pp_pop_define_state] :=
        new_events_append _ _ _ (by rw [ht]; simp only [List.append_assoc])
      refine ⟨?_, hc, Or.inr (Or.inr ⟨hpush, rfl, evs, d, hs, hr, hne⟩)⟩
      rw [hne, ht]
      simp only [List.append_assoc]
    | false =>
      cases input with
      | none => simp [opens] at hop
      | some path =>
        have hf : env.fopen_ok path = false := hop
        obtain ⟨evs, hs, hr, ht, hc, _⟩ := wpp_parse_open_failure env path output w hpush hf
        have hne : new_events w (wpp_parse env (some path) output w).2
            = Event.pp_push_define_state 0 :: evs
                ++ [Event.fopen path false,
                    Event.ppy_error ("Could not open " ++ path ++ "\n")] :=
          new_events_append _ _ _ (by rw [ht]; simp only [List.append_assoc])
        refine ⟨?_, hc, Or.inr (Or.inl ⟨hpush, hr, path, evs, rfl, hf, hs, hne⟩)⟩
        rw [hne, ht]
        simp only [List.append_assoc]
  · obtain ⟨hr, ht, hc, _⟩ := wpp_parse_push_failure env input output w hpush
    have hne := new_events_append _ _ _ ht
    exact ⟨by rw [hne, ht], hc, Or.inl ⟨hpush, hr, hne⟩⟩

/-- The only stream a run of `wpp_parse` closes is the named input it opened. -/
theorem wpp_parse_closes (env : Env) (input : Option String) (output : FILE) (w : World)
    (f : FILE) (hf : Event.fclose f ∈ new_events w (wpp_parse env input output w).2) :
    ∃ path, input = some path ∧ env.fopen_ok path = true ∧ f = FILE.fopened path := by
  obtain ⟨_, _, h | h | h⟩ := wpp_parse_cases env input output w
  · rw [h.2.2] at hf
    simp at hf
  · obtain ⟨_, _, path, evs, _, _, hs, hne⟩ := h
    rw [hne] at hf
    simp only [List.cons_append, List.mem_cons, List.mem_append, List.not_mem_nil,
      or_false] at hf
    rcases hf with h1 | h1 | h1 | h1
    · exact Event.noConfusion h1
    · exact absurd (hs _ h1) (by simp [Event.is_setup])
    · exact Event.noConfusion h1
    · exact Event.noConfusion h1
  · obtain ⟨_, hop, evs, d, hs, _, hne⟩ := h
    rw [hne] at hf
    cases input with
    | none =>
      simp at hf
      exact absurd (hs _ hf) (by simp [Event.is_setup])
    | some path =>
      simp at hf
      rcases hf with h1 | h1
      · exact absurd (hs _ h1) (by simp [Event.is_setup])
      · exact ⟨path, rfl, hop, h1⟩

theorem temp_name_eq (b letters : String) :
    String.mk ((b ++ ".XXXXXX").toList.take ((b ++ ".XXXXXX").length - 6)) ++ letters
      = b ++ "." ++ letters := by
  have h1 : (b ++ ".XXXXXX").toList = b.data ++ ['.', 'X', 'X', 'X', 'X', 'X', 'X'] := rfl
  have h2 : (b ++ ".XXXXXX").length = b.data.length + 7 := by
    rw [String.length_append]
    rfl
  have h3 : String.mk ((b ++ ".XXXXXX").toList.take ((b ++ ".XXXXXX").length - 6))
      = b ++ "." := by
    apply String.ext
    rw [h1, h2]
    have : b.data.length + 7 - 6 = b.data.length + 1 := by omega
    rw [this, List.take_append]
    rfl
  rw [h3]

theorem base_or_fallback_eq (output_base : Option String) :
    (match output_base with
      | none => "wpptmp"
      | some b => if b = "" then "wpptmp" else b) = base_or_fallback output_base := by
  cases output_base with
  | none => simp [base_or_fallback]
  | some b => by_cases hb : b = "" <;> simp [base_or_fallback, hb]


/-- The run into a temporary file when the name buffer, the file and the stream are all
obtained, in terms of the base of the name. -/
theorem wpp_parse_temp_opened (env : Env) (input output_base : Option String) (w : World)
    (fd : Nat) (halloc : w.heap.outcome w.heap.requests = true)
    (hfd : env.mkstemps_fd = some fd) (hopen : env.fdopen_ok fd = true) :
    wpp_parse_temp env input output_base w
      = ((wpp_parse env input (FILE.fdopened fd)
            (libc (Event.fdopen fd true)
              (libc (Event.mkstemps (base_or_fallback output_base ++ ".XXXXXX") fd)
                (World.xmalloc env w).2))).1,
         some (base_or_fallback output_base ++ "." ++ env.mkstemps_letters),
         libc (Event.fclose (FILE.fdopened fd))
           (wpp_parse env input (FILE.fdopened fd)
            (libc (Event.fdopen fd true)
              (libc (Event.mkstemps (base_or_fallback output_base ++ ".XXXXXX") fd)
                (World.xmalloc env w).2))).2) := by
  have hm : (World.xmalloc env w).1 = true := halloc
  rw [← temp_name_eq, ← base_or_fallback_eq]
  cases output_base with
  | none => simp only [wpp_parse_temp, hm, hfd, hopen]; rfl
  | some b => simp only [wpp_parse_temp, hm, hfd, hopen]; rfl


/-- The run into a temporary file when the name buffer is obtained and `mkstemps` or
`fdopen` fails: status 2, `*output_name` not assigned, and the events. -/
theorem wpp_parse_temp_unopened (env : Env) (input output_base : Option String) (w : World)
    (halloc : w.heap.outcome w.heap.requests = true) (hfail : temp_fails env = true) :
    (wpp_parse_temp env input output_base w).1 = 2
    ∧ (wpp_parse_temp env input output_base w).2.1 = none
    ∧ (wpp_parse_temp env input output_base w).2.2.cmdline_defines = w.cmdline_defines
    ∧ (wpp_parse_temp env input output_base w).2.2.pp_status_input = w.pp_status_input
    ∧ (wpp_parse_temp env input output_base w).2.2.ppy_in = w.ppy_in
    ∧ (wpp_parse_temp env input output_base w).2.2.ppy_out = w.ppy_out
    ∧ ((env.mkstemps_fd = none
          ∧ new_events w (wpp_parse_temp env input output_base w).2.2
            = [Event.pp_xmalloc true,
               Event.mkstemps (base_or_fallback output_base ++ ".XXXXXX") (-1),
               Event.ppy_error ("Could not generate a temp name from "
                 ++ (base_or_fallback output_base ++ "." ++ env.mkstemps_letters)
                 ++ "\n")])
        ∨ (∃ fd : Nat, env.mkstemps_fd = some fd ∧ env.fdopen_ok fd = false
          ∧ new_events w (wpp_parse_temp env input output_base w).2.2
            = [Event.pp_xmalloc true,
               Event.mkstemps (base_or_fallback output_base ++ ".XXXXXX") fd,
               Event.fdopen fd false,
               Event.ppy_error ("Could not open fd "
                 ++ (base_or_fallback output_base ++ "." ++ env.mkstemps_letters)
                 ++ " for writing\n")])) := by
  have hm : (World.xmalloc env w).1 = true := halloc
  have hx : (World.xmalloc env w).2.trace = w.trace ++ [Event.pp_xmalloc true] := by
    simp [World.xmalloc, pp_xmalloc, halloc, collab]
  cases hfd : env.mkstemps_fd with
  | none =>
    have hA : wpp_parse_temp env input output_base w
        = (2, none, ppy_error env
            ("Could not generate a temp name from "
              ++ (base_or_fallback output_base ++ "." ++ env.mkstemps_letters) ++ "\n")
            (libc (Event.mkstemps (base_or_fallback output_base ++ ".XXXXXX") (-1))
              (World.xmalloc env w).2)) := by
      rw [← temp_name_eq, ← base_or_fallback_eq]
      simp only [wpp_parse_temp, hm, hfd]
      rfl
    rw [hA]
    refine ⟨rfl, rfl, rfl, rfl, rfl, rfl, Or.inl ⟨rfl, ?_⟩⟩
    apply new_events_append
    show ((World.xmalloc env w).2.trace ++ [_]) ++ [_] = _
    rw [hx]
    simp
  | some fd =>
    have hf : env.fdopen_ok fd = false := by
      simpa [temp_fails, hfd] using hfail
    have hA : wpp_parse_temp env input output_base w
        = (2, none, ppy_error env
            ("Could not open fd "
              ++ (base_or_fallback output_base ++ "." ++ env.mkstemps_letters)
              ++ " for writing\n")
            (libc (Event.fdopen fd false)
              (libc (Event.mkstemps (base_or_fallback output_base ++ ".XXXXXX") fd)
                (World.xmalloc env w).2))) := by
      rw [← temp_name_eq, ← base_or_fallback_eq]
      simp only [wpp_parse_temp, hm, hfd, hf]
      rfl
    rw [hA]
    refine ⟨rfl, rfl, rfl, rfl, rfl, rfl, Or.inr ⟨fd, rfl, hf, ?_⟩⟩
    apply new_events_append
    show (((World.xmalloc env w).2.trace ++ [_]) ++ [_]) ++ [_] = _
    rw [hx]
    simp

/-- The run into a temporary file when the name buffer cannot be obtained. -/
theorem wpp_parse_temp_no_buffer (env : Env) (input output_base : Option String) (w : World)
    (halloc : w.heap.outcome w.heap.requests = false) :
    (wpp_parse_temp env input output_base w).1 = 1
    ∧ (wpp_parse_temp env input output_base w).2.1 = none
    ∧ new_events w (wpp_parse_temp env input output_base w).2.2 = [Event.pp_xmalloc false]
    ∧ (wpp_parse_temp env input output_base w).2.2.cmdline_defines = w.cmdline_defines := by
  have hm : (World.xmalloc env w).1 = false := halloc
  have hx : (World.xmalloc env w).2.trace = w.trace ++ [Event.pp_xmalloc false] := by
    simp [World.xmalloc, pp_xmalloc, halloc, collab]
  have hA : wpp_parse_temp env input output_base w = (1, none, (World.xmalloc env w).2) := by
    simp only [wpp_parse_temp, hm]
    rfl
  rw [hA]
  exact ⟨rfl, rfl, new_events_append _ _ _ hx, rfl⟩

/-- C14: when the name buffer, the unique file and its stream are obtained, the template
handed to `mkstemps` is `b` followed by `.XXXXXX`, with `b` the given base, or `wpptmp`
when the base is `NULL` or empty; `wpp_parse` runs once, with the stream of the new file
as output; that stream is closed once, after `wpp_parse` has returned and whatever it
returned; `*output_name` is the generated name, `b` followed by a dot and the six
characters of `mkstemps`; and the status returned is the status of `wpp_parse`. -/
theorem wpp_parse_temp_success (env : Env) (input output_base : Option String) (w : World)
    (fd : Nat) (halloc : w.heap.outcome w.heap.requests = true)
    (hfd : env.mkstemps_fd = some fd) (hopen : env.fdopen_ok fd = true) :
    let w0 := libc (Event.fdopen fd true)
      (libc (Event.mkstemps (base_or_fallback output_base ++ ".XXXXXX") fd)
        (World.xmalloc env w).2)
    let r := wpp_parse env input (FILE.fdopened fd) w0
    wpp_parse_temp env input output_base w
      = (r.1, some (base_or_fallback output_base ++ "." ++ env.mkstemps_letters),
         libc (Event.fclose (FILE.fdopened fd)) r.2)
    ∧ new_events w (wpp_parse_temp env input output_base w).2.2
        = [Event.pp_xmalloc true,
           Event.mkstemps (base_or_fallback output_base ++ ".XXXXXX") fd,
           Event.fdopen fd true]
          ++ new_events w0 r.2 ++ [Event.fclose (FILE.fdopened fd)]
    ∧ (new_events w (wpp_parse_temp env input output_base w).2.2).count
        (Event.fclose (FILE.fdopened fd)) = 1
    ∧ base_or_fallback none = "wpptmp" ∧ base_or_fallback (some "") = "wpptmp"
    ∧ base_or_fallback (some "abc") ++ "." ++ env.mkstemps_letters
        = "abc." ++ env.mkstemps_letters := by
  intro w0 r
  have hA := wpp_parse_temp_opened env input output_base w fd halloc hfd hopen
  have hx : (World.xmalloc env w).2.trace = w.trace ++ [Event.pp_xmalloc true] := by
    simp [World.xmalloc, pp_xmalloc, halloc, collab]
  have hw0 : w0.trace = w.trace ++ [Event.pp_xmalloc true,
      Event.mkstemps (base_or_fallback output_base ++ ".XXXXXX") fd,
      Event.fdopen fd true] := by
    show ((World.xmalloc env w).2.trace ++ [_]) ++ [_] = _
    rw [hx]
    simp
  have hr : r.2.trace = w0.trace ++ new_events w0 r.2 :=
    (wpp_parse_cases env input (FILE.fdopened fd) w0).1
  have hne : new_events w (wpp_parse_temp env input output_base w).2.2
      = [Event.pp_xmalloc true,
         Event.mkstemps (base_or_fallback output_base ++ ".XXXXXX") fd,
         Event.fdopen fd true]
        ++ new_events w0 r.2 ++ [Event.fclose (FILE.fdopened fd)] := by
    apply new_events_append
    rw [hA]
    show r.2.trace ++ [_] = _
    rw [hr, hw0]
    simp only [List.append_assoc]
  have hnone : (new_events w0 r.2).count (Event.fclose (FILE.fdopened fd)) = 0 := by
    rw [List.count_eq_zero]
    intro hin
    obtain ⟨path, _, _, hp⟩ := wpp_parse_closes env input (FILE.fdopened fd) w0 _ hin
    exact FILE.noConfusion hp
  refine ⟨hA, hne, ?_, by decide, by decide, ?_⟩
  · rw [hne]
    simp [List.count_append, hnone, List.count_cons]
  · have : base_or_fallback (some "abc") = "abc" := by decide
    rw [this]
    rfl

/-- C14 at a run on `a.c` with base `abc`, in an environment where everything succeeds. -/
theorem wpp_parse_temp_success_witness :
    (World.init []).heap.outcome (World.init []).heap.requests = true
    ∧ calm.mkstemps_fd = some 3 ∧ calm.fdopen_ok (3 : Nat) = true
    ∧ (wpp_parse_temp calm (some "a.c") (some "abc") (World.init [])).1 = 0
    ∧ (wpp_parse_temp calm (some "a.c") (some "abc") (World.init [])).2.1
        = some "abc.a1b2c3"
    ∧ (new_events (World.init [])
        (wpp_parse_temp calm (some "a.c") (some "abc") (World.init [])).2.2).count
        (Event.fclose (FILE.fdopened (3 : Nat))) = 1 :=
  ⟨rfl, rfl, rfl, by decide, by decide,
   (wpp_parse_temp_success calm (some "a.c") (some "abc") (World.init []) 3
      rfl rfl rfl).2.2.1⟩

/-- C15: when the name buffer is obtained and `mkstemps` fails, or `fdopen` fails on the
descriptor, `wpp_parse_temp` returns 2 and does not run `wpp_parse`: apart from the
allocation and an error message, the events of the call are the `mkstemps` call and, when
there was one, the `fdopen` call.  No save point is pushed, no define is handed over, no
input is opened, and `*output_name`, `pp_status.input` and the table are untouched. -/
theorem wpp_parse_temp_failure (env : Env) (input output_base : Option String) (w : World)
    (halloc : w.heap.outcome w.heap.requests = true) (hfail : temp_fails env = true) :
    (wpp_parse_temp env input output_base w).1 = 2
    ∧ (wpp_parse_temp env input output_base w).1 ≠ 0
    ∧ (wpp_parse_temp env input output_base w).2.1 = none
    ∧ (∀ e ∈ new_events w (wpp_parse_temp env input output_base w).2.2,
        (∀ c, e ≠ Event.pp_push_define_state c)
        ∧ (∀ n v b, e ≠ Event.pp_add_define n v b)
        ∧ (∀ path ok, e ≠ Event.fopen path ok)
        ∧ e ≠ Event.pp_pop_define_state
        ∧ e.is_parse = false ∧ e.is_output = false)
    ∧ added_defines (new_events w (wpp_parse_temp env input output_base w).2.2) = []
    ∧ (wpp_parse_temp env input output_base w).2.2.pp_status_input = w.pp_status_input
    ∧ (wpp_parse_temp env input output_base w).2.2.cmdline_defines = w.cmdline_defines := by
  obtain ⟨hr, ho, hc, hi, _, _, ⟨_, h⟩ | ⟨fd, _, _, h⟩⟩ :=
    wpp_parse_temp_unopened env input output_base w halloc hfail
  · rw [h, hr]
    refine ⟨rfl, by decide, ho, ?_, rfl, hi, hc⟩
    intro e he
    simp only [List.mem_cons, List.not_mem_nil, or_false] at he
    rcases he with h1 | h1 | h1 <;> subst h1 <;>
      exact ⟨fun _ h => Event.noConfusion h, fun _ _ _ h => Event.noConfusion h,
        fun _ _ h => Event.noConfusion h, fun h => Event.noConfusion h, rfl, rfl⟩
  · rw [h, hr]
    refine ⟨rfl, by decide, ho, ?_, rfl, hi, hc⟩
    intro e he
    simp only [List.mem_cons, List.not_mem_nil, or_false] at he
    rcases he with h1 | h1 | h1 | h1 <;> subst h1 <;>
      exact ⟨fun _ h => Event.noConfusion h, fun _ _ _ h => Event.noConfusion h,
        fun _ _ h => Event.noConfusion h, fun h => Event.noConfusion h, rfl, rfl⟩

/-- C15 at a call for which `mkstemps` returns `-1`: the message shows the buffer as
`mkstemps` left it. -/
theorem wpp_parse_temp_failure_witness :
    (World.init [⟨"A", some "1"⟩]).heap.outcome (World.init [⟨"A", some "1"⟩]).heap.requests
      = true
    ∧ temp_fails { calm with mkstemps_fd := none } = true
    ∧ (wpp_parse_temp { calm with mkstemps_fd := none }
        (some "a.c") (some "abc") (World.init [⟨"A", some "1"⟩])).1 = 2
    ∧ (wpp_parse_temp { calm with mkstemps_fd := none }
        (some "a.c") (some "abc") (World.init [⟨"A", some "1"⟩])).2.2.trace
        = [Event.pp_xmalloc true, Event.mkstemps "abc.XXXXXX" (-1),
           Event.ppy_error "Could not generate a temp name from abc.a1b2c3\n"] :=
  ⟨rfl, rfl,
   (wpp_parse_temp_failure { calm with mkstemps_fd := none }
      (some "a.c") (some "abc") (World.init [⟨"A", some "1"⟩]) rfl rfl).1,
   by decide⟩

/-! ## The failure codes -/

theorem wpp_add_define_status (name : String) (value : Option String) (t : Table)
    (h : Heap) :
    (wpp_add_define name value t h).1
      = if served h (wpp_add_define name value t h).2.2 then 0 else 1 := by
  cases hf : find_define t name with
  | some i =>
    cases ho : h.outcome h.requests <;>
      simp [wpp_add_define, hf, pp_xstrdup, pp_xmalloc, ho, served]
  | none =>
    cases h0 : h.outcome h.requests <;>
    cases h1 : h.outcome (h.requests + 1) <;>
    cases h2 : h.outcome (h.requests + 1 + 1) <;>
      simp [wpp_add_define, hf, pp_xstrdup, pp_xmalloc, h0, h1, h2, served,
        List.range_succ, Nat.add_assoc]

theorem wpp_add_cmdline_define_status (s : String) (t : Table) (h : Heap) :
    (wpp_add_cmdline_define s t h).1 = if h.outcome h.requests then 0 else 1 := by
  cases ho : h.outcome h.requests <;>
    simp [wpp_add_cmdline_define, pp_xstrdup, pp_xmalloc, ho]

/-- C11, where the claim fails: the status of `wpp_parse` for an input that cannot be
opened and the status of `wpp_parse_temp` for a temporary file that cannot be generated,
or cannot be opened, are the same integer 2. -/
theorem open_and_temp_failure_share_code :
    (wpp_parse { calm with fopen_ok := fun _ => false } (some "missing.c") (FILE.given 0)
        (World.init [])).1 = 2
    ∧ (wpp_parse_temp { calm with mkstemps_fd := none } (some "a.c") (some "abc")
        (World.init [])).1 = 2
    ∧ (wpp_parse_temp { calm with fdopen_ok := fun _ => false } (some "a.c") (some "abc")
        (World.init [])).1 = 2
    ∧ (wpp_parse { calm with fopen_ok := fun _ => false } (some "missing.c") (FILE.given 0)
        (World.init [])).1
      = (wpp_parse_temp { calm with mkstemps_fd := none } (some "a.c") (some "abc")
        (World.init [])).1 := by
  decide

/-- C11 as amended: the failure codes are nonzero and there are two of them.  A failed
allocation gives 1: in `wpp_add_define`, for the copy that `wpp_add_cmdline_define` makes
of its argument, and for the name buffer of `wpp_parse_temp`.  An input that cannot be
opened gives 2 in `wpp_parse`, and a temporary file that cannot be generated or opened
gives the same 2 in `wpp_parse_temp`.  The allocation code differs from the other one. -/
theorem failure_codes (env : Env) (path : String) (output : FILE)
    (input output_base : Option String) (w w1 w2 : World)
    (hpush : env.push_ret = 0) (hopen : env.fopen_ok path = false)
    (hbuffer : w1.heap.outcome w1.heap.requests = false)
    (halloc : w2.heap.outcome w2.heap.requests = true) (hfail : temp_fails env = true) :
    (wpp_parse_temp env input output_base w1).1 = 1
    ∧ (wpp_parse env (some path) output w).1 = 2
    ∧ (wpp_parse_temp env input output_base w2).1 = 2
    ∧ (∀ name value t h, (wpp_add_define name value t h).1
        = if served h (wpp_add_define name value t h).2.2 then 0 else 1)
    ∧ (∀ s t h, (wpp_add_cmdline_define s t h).1 = if h.outcome h.requests then 0 else 1)
    ∧ (wpp_parse_temp env input output_base w1).1 ≠ 0
    ∧ (wpp_parse env (some path) output w).1 ≠ 0
    ∧ (wpp_parse_temp env input output_base w2).1 ≠ 0
    ∧ (wpp_parse_temp env input output_base w1).1 ≠ (wpp_parse env (some path) output w).1
    ∧ (wpp_parse_temp env input output_base w1).1
        ≠ (wpp_parse_temp env input output_base w2).1 := by
  obtain ⟨_, _, h2, _⟩ := wpp_parse_open_failure env path output w hpush hopen
  have h1 := (wpp_parse_temp_no_buffer env input output_base w1 hbuffer).1
  have h3 := (wpp_parse_temp_unopened env input output_base w2 halloc hfail).1
  rw [h1, h2, h3]
  exact ⟨rfl, rfl, rfl, wpp_add_define_status, wpp_add_cmdline_define_status,
    by decide, by decide, by decide, by decide, by decide⟩

/-- C11 as amended, at an input that does not open, a heap that serves nothing and a
temporary file that cannot be generated. -/
theorem failure_codes_witness :
    ({ calm with fopen_ok := fun _ => false, mkstemps_fd := none } : Env).push_ret = 0
    ∧ ({ calm with fopen_ok := fun _ => false, mkstemps_fd := none } : Env).fopen_ok
        "missing.c" = false
    ∧ temp_fails { calm with fopen_ok := fun _ => false, mkstemps_fd := none } = true
    ∧ (wpp_parse_temp { calm with fopen_ok := fun _ => false, mkstemps_fd := none }
        none none { World.init [] with heap := { outcome := fun _ => false, requests := 0 } }).1
        = 1
    ∧ (wpp_parse { calm with fopen_ok := fun _ => false, mkstemps_fd := none }
        (some "missing.c") (FILE.given 0) (World.init [])).1 = 2 :=
  ⟨rfl, rfl, rfl,
   (failure_codes { calm with fopen_ok := fun _ => false, mkstemps_fd := none } "missing.c"
      (FILE.given 0) none none (World.init [])
      { World.init [] with heap := { outcome := fun _ => false, requests := 0 } }
      (World.init []) rfl rfl rfl rfl rfl).1,
   (failure_codes { calm with fopen_ok := fun _ => false, mkstemps_fd := none } "missing.c"
      (FILE.given 0) none none (World.init [])
      { World.init [] with heap := { outcome := fun _ => false, requests := 0 } }
      (World.init []) rfl rfl rfl rfl rfl).2.1⟩

/-! ## File handles -/

/-- C19, the code at the failing input: `mkstemps` creates the file and returns the
descriptor 3, and `fdopen` returns `NULL` for it.  `wpp_parse_temp` returns 2 at line 225
after the error message; nothing has closed the descriptor, and `*output_name` is not
assigned.  When `fdopen` returns a stream, that stream is closed once. -/
theorem wpp_parse_temp_leaves_descriptor_open :
    (wpp_parse_temp { calm with fdopen_ok := fun _ => false } (some "a.c") (some "abc")
        (World.init [])).1 = 2
    ∧ (wpp_parse_temp { calm with fdopen_ok := fun _ => false } (some "a.c") (some "abc")
        (World.init [])).2.1 = none
    ∧ (wpp_parse_temp { calm with fdopen_ok := fun _ => false } (some "a.c") (some "abc")
        (World.init [])).2.2.trace
        = [Event.pp_xmalloc true, Event.mkstemps "abc.XXXXXX" 3, Event.fdopen 3 false,
           Event.ppy_error "Could not open fd abc.a1b2c3 for writing\n"]
    ∧ (wpp_parse_temp calm (some "a.c") (some "abc") (World.init [])).2.2.trace.count
        (Event.fclose (FILE.fdopened 3)) = 1 := by
  decide


/-! ## The defines handed to the engine -/

theorem valued_cons_none {d : define} (rest : Table) (hv : d.value = none) :
    valued (d :: rest) = valued rest := by
  simp [valued, List.filterMap_cons, hv]

theorem valued_cons_some {d : define} (rest : Table) {v : String} (hv : d.value = some v) :
    valued (d :: rest) = (d.name, v) :: valued rest := by
  simp [valued, List.filterMap_cons, hv]

/-- The loop of `add_cmdline_defines` calls `pp_add_define` once for every entry that has
a value, in table order, with the copies the allocator hands back, and marks nothing. -/
theorem add_cmdline_defines_from_calls (env : Env) (l : Table) (w : World) :
    ∃ evs, (add_cmdline_defines_from env l w).trace = w.trace ++ evs
      ∧ (∀ e ∈ evs, e.is_setup = true)
      ∧ Event.set_def_special ∉ evs
      ∧ added_defines evs
          = copies w.heap.outcome env.value_first w.heap.requests (valued l)
      ∧ (add_cmdline_defines_from env l w).heap.outcome = w.heap.outcome
      ∧ (add_cmdline_defines_from env l w).heap.requests
          = w.heap.requests + 2 * (valued l).length := by
  induction l generalizing w with
  | nil =>
    exact ⟨[], by simp [add_cmdline_defines_from], by simp, by simp,
      by simp [added_defines, valued, copies], rfl, by simp [add_cmdline_defines_from, valued]⟩
  | cons d rest ih =>
    cases hv : d.value with
    | none =>
      obtain ⟨evs, ht, hs, hm, ha, ho, hr⟩ := ih w
      rw [valued_cons_none rest hv]
      exact ⟨evs, by simpa [add_cmdline_defines_from, hv] using ht, hs, hm, ha,
        by simpa [add_cmdline_defines_from, hv] using ho,
        by simpa [add_cmdline_defines_from, hv] using hr⟩
    | some val =>
      obtain ⟨hst, hso, hsr, _⟩ := add_special_step env d.name val w
      obtain ⟨evs, ht, hs, hm, ha, ho, hr⟩ := ih (add_special env d.name val w).2
      have hdef : add_cmdline_defines_from env (d :: rest) w
          = add_cmdline_defines_from env rest (add_special env d.name val w).2 := by
        simp only [add_cmdline_defines_from, hv]
      rw [hdef, valued_cons_some rest hv]
      refine ⟨call_events w.heap.outcome env.value_first w.heap.requests d.name val
          (add_special env d.name val w).1 ++ evs, ?_, ?_, ?_, ?_, ?_, ?_⟩
      · rw [ht, hst, List.append_assoc]
      · intro e he
        rcases List.mem_append.mp he with h | h
        · exact call_events_setup _ _ _ _ _ _ e h
        · exact hs e h
      · intro he
        rcases List.mem_append.mp he with h | h
        · exact mark_not_mem_call_events _ _ _ _ _ _ h
        · exact hm h
      · rw [added_defines_append, added_defines_call_events, ha, hso, hsr]
        rfl
      · rw [ho, hso]
      · rw [hr, hsr]
        simp only [List.length_cons]
        omega

theorem add_marked_step (env : Env) (name value : String) (w : World) :
    (if (add_special env name value w).1
        then libc Event.set_def_special (add_special env name value w).2
        else (add_special env name value w).2).trace
      = w.trace ++ (call_events w.heap.outcome env.value_first w.heap.requests name value
            (add_special env name value w).1
          ++ if (add_special env name value w).1 then [Event.set_def_special] else [])
    ∧ (if (add_special env name value w).1
        then libc Event.set_def_special (add_special env name value w).2
        else (add_special env name value w).2).heap.outcome = w.heap.outcome
    ∧ (if (add_special env name value w).1
        then libc Event.set_def_special (add_special env name value w).2
        else (add_special env name value w).2).heap.requests = w.heap.requests + 2 := by
  obtain ⟨ht, ho, hr, _⟩ := add_special_step env name value w
  cases he : (add_special env name value w).1
  · rw [he] at ht
    simpa using ⟨ht, ho, hr⟩
  · rw [he] at ht
    refine ⟨?_, ho, hr⟩
    show (add_special env name value w).2.trace ++ [Event.set_def_special] = _
    rw [ht]
    simp

theorem followed_by_mark_call_events (o : Nat → Bool) (vf : Bool) (r : Nat)
    (name value : String) (e : Bool) (rest : List Event) :
    followed_by_mark (call_events o vf r name value e ++ rest) = false := by
  cases vf <;> simp [call_events, followed_by_mark]

/-- The events of `add_special_defines`: four `pp_add_define` calls, for `__DATE__`,
`__TIME__`, `__FILE__` and `__LINE__` in this order, with the copies the allocator hands
back; the last two have the empty value and their entry is marked exactly when the
engine returned one, the first two are not marked. -/
theorem add_special_defines_calls (env : Env) (w : World) :
    ∃ spec e1 e2 e3 e4, (add_special_defines env w).trace = w.trace ++ spec
      ∧ (∀ e ∈ spec, e.is_setup = true)
      ∧ define_calls spec
          = [((copy_pair w.heap.outcome env.value_first w.heap.requests
                "__DATE__" env.date).1,
              (copy_pair w.heap.outcome env.value_first w.heap.requests
                "__DATE__" env.date).2, e1, false),
             ((copy_pair w.heap.outcome env.value_first (w.heap.requests + 2)
                "__TIME__" env.time).1,
              (copy_pair w.heap.outcome env.value_first (w.heap.requests + 2)
                "__TIME__" env.time).2, e2, false),
             ((copy_pair w.heap.outcome env.value_first (w.heap.requests + 4)
                "__FILE__" "").1,
              (copy_pair w.heap.outcome env.value_first (w.heap.requests + 4)
                "__FILE__" "").2, e3, e3),
             ((copy_pair w.heap.outcome env.value_first (w.heap.requests + 6)
                "__LINE__" "").1,
              (copy_pair w.heap.outcome env.value_first (w.heap.requests + 6)
                "__LINE__" "").2, e4, e4)]
      ∧ added_defines spec
          = copies w.heap.outcome env.value_first w.heap.requests (specials env)
      ∧ (add_special_defines env w).heap.outcome = w.heap.outcome
      ∧ (add_special_defines env w).heap.requests = w.heap.requests + 8 := by
  obtain ⟨t1, o1, r1, _⟩ := add_special_step env "__DATE__" env.date w
  obtain ⟨t2, o2, r2, _⟩ := add_special_step env "__TIME__" env.time
    (add_special env "__DATE__" env.date w).2
  obtain ⟨t3, o3, r3⟩ := add_marked_step env "__FILE__" ""
    (add_special env "__TIME__" env.time (add_special env "__DATE__" env.date w).2).2
  obtain ⟨t4, o4, r4⟩ := add_marked_step env "__LINE__" ""
    (if (add_special env "__FILE__" ""
          (add_special env "__TIME__" env.time
            (add_special env "__DATE__" env.date w).2).2).1
      then libc Event.set_def_special (add_special env "__FILE__" ""
          (add_special env "__TIME__" env.time
            (add_special env "__DATE__" env.date w).2).2).2
      else (add_special env "__FILE__" ""
          (add_special env "__TIME__" env.time
            (add_special env "__DATE__" env.date w).2).2).2)
  rw [o3, o2, o1, r3, r2, r1] at t4
  rw [o2, o1, r2, r1] at t3
  rw [o1, r1] at t2
  rw [t3, t2, t1] at t4
  rw [o3, o2, o1] at o4
  rw [r3, r2, r1] at r4
  have T4 : (add_special_defines env w).trace = _ := t4
  have O4 : (add_special_defines env w).heap.outcome = w.heap.outcome := o4
  have R4 : (add_special_defines env w).heap.requests = w.heap.requests + 2 + 2 + 2 + 2 := r4
  clear t1 t2 t3 t4 o1 o2 o3 o4 r1 r2 r3 r4
  generalize (add_special env "__DATE__" env.date w).1 = e1 at T4
  generalize (add_special env "__TIME__" env.time
    (add_special env "__DATE__" env.date w).2).1 = e2 at T4
  generalize (add_special env "__FILE__" ""
    (add_special env "__TIME__" env.time (add_special env "__DATE__" env.date w).2).2).1
      = e3 at T4
  generalize (add_special env "__LINE__" "" _).1 = e4 at T4
  refine ⟨call_events w.heap.outcome env.value_first w.heap.requests
        "__DATE__" env.date e1
      ++ call_events w.heap.outcome env.value_first (w.heap.requests + 2)
        "__TIME__" env.time e2
      ++ (call_events w.heap.outcome env.value_first (w.heap.requests + 2 + 2)
          "__FILE__" "" e3
        ++ if e3 = true then [Event.set_def_special] else [])
      ++ (call_events w.heap.outcome env.value_first (w.heap.requests + 2 + 2 + 2)
          "__LINE__" "" e4
        ++ if e4 = true then [Event.set_def_special] else []),
    e1, e2, e3, e4, ?_, ?_, ?_, ?_, O4, by rw [R4]⟩
  · exact T4.trans (by simp only [List.append_assoc])
  · intro e he
    simp only [List.mem_append] at he
    rcases he with ((h | h) | h | h) | h | h
    · exact call_events_setup _ _ _ _ _ _ e h
    · exact call_events_setup _ _ _ _ _ _ e h
    · exact call_events_setup _ _ _ _ _ _ e h
    · cases e3 <;> simp at h
      subst h
      rfl
    · exact call_events_setup _ _ _ _ _ _ e h
    · cases e4 <;> simp at h
      subst h
      rfl
  · clear T4
    cases env.value_first <;> cases e3 <;> cases e4 <;>
      simp [call_events, define_calls, followed_by_mark, copy_pair, Nat.add_assoc]
  · clear T4
    cases env.value_first <;> cases e3 <;> cases e4 <;>
      simp [call_events, added_defines, copies, copy_pair, specials, Nat.add_assoc]


/-- Lines 173-177 after a push that returned 0: the push, then one `pp_add_define` call
for every entry with a value, then the four special ones. -/
theorem prepared_calls (env : Env) (w : World) :
    ∃ cmd spec e1 e2 e3 e4,
      (prepared env w).trace = w.trace ++ Event.pp_push_define_state 0 :: (cmd ++ spec)
      ∧ (∀ e ∈ cmd, e.is_setup = true) ∧ Event.set_def_special ∉ cmd
      ∧ added_defines cmd
          = copies w.heap.outcome env.value_first w.heap.requests (valued w.cmdline_defines)
      ∧ (∀ e ∈ spec, e.is_setup = true)
      ∧ define_calls spec
          = [((copy_pair w.heap.outcome env.value_first
                (w.heap.requests + 2 * (valued w.cmdline_defines).length)
                "__DATE__" env.date).1,
              (copy_pair w.heap.outcome env.value_first
                (w.heap.requests + 2 * (valued w.cmdline_defines).length)
                "__DATE__" env.date).2, e1, false),
             ((copy_pair w.heap.outcome env.value_first
                (w.heap.requests + 2 * (valued w.cmdline_defines).length + 2)
                "__TIME__" env.time).1,
              (copy_pair w.heap.outcome env.value_first
                (w.heap.requests + 2 * (valued w.cmdline_defines).length + 2)
                "__TIME__" env.time).2, e2, false),
             ((copy_pair w.heap.outcome env.value_first
                (w.heap.requests + 2 * (valued w.cmdline_defines).length + 4)
                "__FILE__" "").1,
              (copy_pair w.heap.outcome env.value_first
                (w.heap.requests + 2 * (valued w.cmdline_defines).length + 4)
                "__FILE__" "").2, e3, e3),
             ((copy_pair w.heap.outcome env.value_first
                (w.heap.requests + 2 * (valued w.cmdline_defines).length + 6)
                "__LINE__" "").1,
              (copy_pair w.heap.outcome env.value_first
                (w.heap.requests + 2 * (valued w.cmdline_defines).length + 6)
                "__LINE__" "").2, e4, e4)]
      ∧ added_defines spec
          = copies w.heap.outcome env.value_first
              (w.heap.requests + 2 * (valued w.cmdline_defines).length) (specials env)
      ∧ (prepared env w).heap.outcome = w.heap.outcome
      ∧ (prepared env w).heap.requests
          = w.heap.requests + 2 * (valued w.cmdline_defines).length + 8 := by
  obtain ⟨cmd, ht, hs, hm, ha, ho, hr⟩ := add_cmdline_defines_from_calls env
    w.cmdline_defines (collab env (Event.pp_push_define_state 0)
      { w with pp_status_input := none, pp_status_state := 0 })
  obtain ⟨spec, e1, e2, e3, e4, ht2, hs2, hd2, ha2, ho2, hr2⟩ :=
    add_special_defines_calls env (add_cmdline_defines env
      (collab env (Event.pp_push_define_state 0)
        { w with pp_status_input := none, pp_status_state := 0 }))
  have ht' : (add_cmdline_defines env (collab env (Event.pp_push_define_state 0)
      { w with pp_status_input := none, pp_status_state := 0 })).trace
      = (w.trace ++ [Event.pp_push_define_state 0]) ++ cmd := ht
  have ho' : (add_cmdline_defines env (collab env (Event.pp_push_define_state 0)
      { w with pp_status_input := none, pp_status_state := 0 })).heap.outcome
      = w.heap.outcome := ho
  have hr' : (add_cmdline_defines env (collab env (Event.pp_push_define_state 0)
      { w with pp_status_input := none, pp_status_state := 0 })).heap.requests
      = w.heap.requests + 2 * (valued w.cmdline_defines).length := hr
  rw [ho', hr'] at hd2 ha2
  refine ⟨cmd, spec, e1, e2, e3, e4, ?_, hs, hm, ha, hs2, hd2, ha2, ?_, ?_⟩
  · show (add_special_defines env _).trace = _
    rw [ht2, ht']
    simp
  · show (add_special_defines env _).heap.outcome = _
    rw [ho2, ho']
  · show (add_special_defines env _).heap.requests = _
    rw [hr2, hr']

/-- After a push that returned 0, what `wpp_parse` does once lines 170-177 are done hands
no define to the engine and asks the allocator for nothing. -/
theorem wpp_parse_of_prepared (env : Env) (input : Option String) (output : FILE)
    (w : World) (hpush : env.push_ret = 0) :
    ∃ tl, (wpp_parse env input output w).2.trace = (prepared env w).trace ++ tl
      ∧ (∀ e ∈ tl, e.is_setup = false)
      ∧ (wpp_parse env input output w).2.heap = (prepared env w).heap := by
  cases input with
  | none =>
    refine ⟨[Event.fprintf output "# 1 \"\" 1\n",
      Event.ppy_parse (some output) env.parse_written env.parse_ret
        (env.status ((prepared env w).trace.length + 1) (prepared env w).pp_status_state),
      Event.pp_pop_define_state], ?_, ?_, ?_⟩
    · simp [wpp_parse, prepared, pp_push_define_state, hpush, open_input, ppy_parse, libc,
        pp_pop_define_state, collab]
    · simp [Event.is_setup]
    · simp [wpp_parse, prepared, pp_push_define_state, hpush, open_input, ppy_parse, libc,
        pp_pop_define_state, collab]
  | some path =>
    cases hf : env.fopen_ok path with
    | false =>
      refine ⟨[Event.fopen path false, Event.ppy_error ("Could not open " ++ path ++ "\n")],
        ?_, ?_, ?_⟩
      · simp [wpp_parse, prepared, pp_push_define_state, hpush, open_input, hf, libc,
          ppy_error, collab]
      · simp [Event.is_setup]
      · simp [wpp_parse, prepared, pp_push_define_state, hpush, open_input, hf, libc,
          ppy_error, collab]
    | true =>
      refine ⟨[Event.fopen path true,
        Event.fprintf output ("# 1 \"" ++ path ++ "\" 1\n"),
        Event.ppy_parse (some output) env.parse_written env.parse_ret
          (env.status ((prepared env w).trace.length + 1 + 1)
            (prepared env w).pp_status_state),
        Event.fclose (FILE.fopened path), Event.pp_pop_define_state], ?_, ?_, ?_⟩
      · simp [wpp_parse, prepared, pp_push_define_state, hpush, open_input, hf, ppy_parse,
          libc, pp_pop_define_state, collab]
      · simp [Event.is_setup]
      · simp [wpp_parse, prepared, pp_push_define_state, hpush, open_input, hf, ppy_parse,
          libc, pp_pop_define_state, collab]



theorem copy_pair_served (outcome : Nat → Bool) (hall : ∀ i, outcome i = true) (vf : Bool)
    (r : Nat) (name value : String) :
    copy_pair outcome vf r name value = (some name, some value) := by
  cases vf <;> simp [copy_pair, copy, hall]

theorem copies_served (outcome : Nat → Bool) (hall : ∀ i, outcome i = true) (vf : Bool)
    (r : Nat) (l : List (String × String)) : copies outcome vf r l = served_copies l := by
  induction l generalizing r with
  | nil => rfl
  | cons p rest ih =>
    have := ih (r + 2)
    simp only [served_copies] at this
    simp [copies, served_copies, copy_pair_served outcome hall, this]

theorem copies_append (outcome : Nat → Bool) (vf : Bool) (r : Nat)
    (a b : List (String × String)) :
    copies outcome vf r (a ++ b)
      = copies outcome vf r a ++ copies outcome vf (r + 2 * a.length) b := by
  induction a generalizing r with
  | nil => simp [copies]
  | cons p rest ih =>
    have h : r + 2 + 2 * rest.length = r + 2 * (rest.length + 1) := by omega
    simp [copies, ih, h]

theorem added_defines_of_not_setup {evs : List Event} (h : ∀ e ∈ evs, e.is_setup = false) :
    added_defines evs = [] := by
  induction evs with
  | nil => rfl
  | cons e rest ih =>
    have he := h e (List.mem_cons_self _ _)
    have hr := ih (fun x hx => h x (List.mem_cons_of_mem _ hx))
    cases e <;> simp_all [added_defines, Event.is_setup]


/-- The events of a run whose push returned 0: the push, the calls for the command-line
defines, the calls for the special defines, and a rest that hands over nothing. -/
theorem wpp_parse_run_calls (env : Env) (input : Option String) (output : FILE) (w : World)
    (hpush : env.push_ret = 0) :
    ∃ cmd spec tl e1 e2 e3 e4,
      new_events w (wpp_parse env input output w).2
        = Event.pp_push_define_state 0 :: (cmd ++ spec ++ tl)
      ∧ (∀ e ∈ cmd, e.is_setup = true) ∧ Event.set_def_special ∉ cmd
      ∧ added_defines cmd
          = copies w.heap.outcome env.value_first w.heap.requests (valued w.cmdline_defines)
      ∧ (∀ e ∈ spec, e.is_setup = true)
      ∧ define_calls spec
          = [((copy_pair w.heap.outcome env.value_first
                (w.heap.requests + 2 * (valued w.cmdline_defines).length)
                "__DATE__" env.date).1,
              (copy_pair w.heap.outcome env.value_first
                (w.heap.requests + 2 * (valued w.cmdline_defines).length)
                "__DATE__" env.date).2, e1, false),
             ((copy_pair w.heap.outcome env.value_first
                (w.heap.requests + 2 * (valued w.cmdline_defines).length + 2)
                "__TIME__" env.time).1,
              (copy_pair w.heap.outcome env.value_first
                (w.heap.requests + 2 * (valued w.cmdline_defines).length + 2)
                "__TIME__" env.time).2, e2, false),
             ((copy_pair w.heap.outcome env.value_first
                (w.heap.requests + 2 * (valued w.cmdline_defines).length + 4)
                "__FILE__" "").1,
              (copy_pair w.heap.outcome env.value_first
                (w.heap.requests + 2 * (valued w.cmdline_defines).length + 4)
                "__FILE__" "").2, e3, e3),
             ((copy_pair w.heap.outcome env.value_first
                (w.heap.requests + 2 * (valued w.cmdline_defines).length + 6)
                "__LINE__" "").1,
              (copy_pair w.heap.outcome env.value_first
                (w.heap.requests + 2 * (valued w.cmdline_defines).length + 6)
                "__LINE__" "").2, e4, e4)]
      ∧ (∀ e ∈ tl, e.is_setup = false)
      ∧ added_defines (new_events w (wpp_parse env input output w).2)
          = copies w.heap.outcome env.value_first w.heap.requests
              (valued w.cmdline_defines ++ specials env)
      ∧ (wpp_parse env input output w).2.heap.outcome = w.heap.outcome := by
  obtain ⟨cmd, spec, e1, e2, e3, e4, ht, hs, hm, ha, hs2, hd2, ha2, ho, _⟩ :=
    prepared_calls env w
  obtain ⟨tl, htl, hns, hh⟩ := wpp_parse_of_prepared env input output w hpush
  have hne : new_events w (wpp_parse env input output w).2
      = Event.pp_push_define_state 0 :: (cmd ++ spec ++ tl) :=
    new_events_append _ _ _ (by rw [htl, ht]; simp)
  refine ⟨cmd, spec, tl, e1, e2, e3, e4, hne, hs, hm, ha, hs2, hd2, hns, ?_, ?_⟩
  · rw [hne, copies_append, ← ha, ← ha2]
    have h1 : added_defines (Event.pp_push_define_state 0 :: (cmd ++ spec ++ tl))
        = added_defines (cmd ++ spec ++ tl) := rfl
    rw [h1, added_defines_append, added_defines_append, added_defines_of_not_setup hns]
    simp
  · rw [hh, ho]


/-! ## The order of the defines of a run -/

theorem wpp_parse_temp_table (env : Env) (input output_base : Option String) (w : World) :
    (wpp_parse_temp env input output_base w).2.2.cmdline_defines = w.cmdline_defines := by
  cases halloc : w.heap.outcome w.heap.requests with
  | false => exact (wpp_parse_temp_no_buffer env input output_base w halloc).2.2.2
  | true =>
    cases hfail : temp_fails env with
    | true => exact (wpp_parse_temp_unopened env input output_base w halloc hfail).2.2.1
    | false =>
      cases hfd : env.mkstemps_fd with
      | none => simp [temp_fails, hfd] at hfail
      | some fd =>
        have hopen : env.fdopen_ok fd = true := by
          simpa [temp_fails, hfd] using hfail
        rw [wpp_parse_temp_opened env input output_base w fd halloc hfd hopen]
        show (wpp_parse env input (FILE.fdopened fd) _).2.cmdline_defines = _
        rw [(wpp_parse_cases env input (FILE.fdopened fd) _).2.1]
        rfl

theorem served_copies_append (a b : List (String × String)) :
    served_copies (a ++ b) = served_copies a ++ served_copies b := by
  simp [served_copies]

/-- Every run leaves the table as it was. -/
theorem run_exec_table (env : Env) (run : Run) (w : World) :
    (run.exec env w).2.cmdline_defines = w.cmdline_defines := by
  cases run with
  | parse input output => exact (wpp_parse_cases env input output w).2.1
  | temp input output_base => exact wpp_parse_temp_table env input output_base w

/-- The events of a run into a temporary file whose file and stream were obtained: the
three calls that make the file, the events of `wpp_parse`, and the closing of the
stream. -/
theorem wpp_parse_temp_events (env : Env) (input output_base : Option String) (w : World)
    (fd : Nat) (halloc : w.heap.outcome w.heap.requests = true)
    (hfd : env.mkstemps_fd = some fd) (hopen : env.fdopen_ok fd = true) :
    ∃ w1 : World,
      w1.cmdline_defines = w.cmdline_defines ∧ w1.heap.outcome = w.heap.outcome
      ∧ w1.heap.requests = w.heap.requests + 1
      ∧ (wpp_parse_temp env input output_base w).2.2.heap
          = (wpp_parse env input (FILE.fdopened fd) w1).2.heap
      ∧ new_events w (wpp_parse_temp env input output_base w).2.2
          = [Event.pp_xmalloc true,
             Event.mkstemps (base_or_fallback output_base ++ ".XXXXXX") fd,
             Event.fdopen fd true]
            ++ new_events w1 (wpp_parse env input (FILE.fdopened fd) w1).2
            ++ [Event.fclose (FILE.fdopened fd)] := by
  refine ⟨libc (Event.fdopen fd true)
    (libc (Event.mkstemps (base_or_fallback output_base ++ ".XXXXXX") fd)
      (World.xmalloc env w).2), rfl, rfl, rfl, ?_, ?_⟩
  · rw [wpp_parse_temp_opened env input output_base w fd halloc hfd hopen]
    rfl
  · rw [wpp_parse_temp_opened env input output_base w fd halloc hfd hopen]
    apply new_events_append
    show (wpp_parse env input (FILE.fdopened fd) _).2.trace ++ [_] = _
    rw [(wpp_parse_cases env input (FILE.fdopened fd) _).1]
    simp [libc, World.xmalloc, pp_xmalloc, collab, halloc]

/-- A run that does not get to line 176 hands nothing to the engine. -/
theorem run_exec_no_hand_over (env : Env) (run : Run) (w : World)
    (h : run.hands_over env w = false) :
    added_defines (new_events w (run.exec env w).2) = [] := by
  cases run with
  | parse input output =>
    have hp : env.push_ret ≠ 0 := by simpa [Run.hands_over] using h
    obtain ⟨_, _, hc | hc | hc⟩ := wpp_parse_cases env input output w
    · show added_defines (new_events w (wpp_parse env input output w).2) = []
      rw [hc.2.2]
      rfl
    · exact absurd hc.1 hp
    · exact absurd hc.1 hp
  | temp input output_base =>
    show added_defines (new_events w (wpp_parse_temp env input output_base w).2.2) = []
    cases halloc : w.heap.outcome w.heap.requests with
    | false =>
      rw [(wpp_parse_temp_no_buffer env input output_base w halloc).2.2.1]
      rfl
    | true =>
      cases hfail : temp_fails env with
      | true =>
        obtain ⟨_, _, _, _, _, _, hc | hc⟩ :=
          wpp_parse_temp_unopened env input output_base w halloc hfail
        · rw [hc.2]
          rfl
        · obtain ⟨fd, _, _, hev⟩ := hc
          rw [hev]
          rfl
      | false =>
        have hp : env.push_ret ≠ 0 := by simpa [Run.hands_over, halloc, hfail] using h
        cases hfd : env.mkstemps_fd with
        | none => simp [temp_fails, hfd] at hfail
        | some fd =>
          have hopen : env.fdopen_ok fd = true := by
            simpa [temp_fails, hfd] using hfail
          obtain ⟨w1, _, _, _, _, hev⟩ :=
            wpp_parse_temp_events env input output_base w fd halloc hfd hopen
          rw [hev]
          obtain ⟨_, _, hc | hc | hc⟩ := wpp_parse_cases env input (FILE.fdopened fd) w1
          · rw [hc.2.2]
            rfl
          · exact absurd hc.1 hp
          · exact absurd hc.1 hp

/-- A run that gets to line 176 hands over the copies of the entries with a value, in
table order, and then those of its four special defines; the allocator answers as
before. -/
theorem run_exec_hand_over (env : Env) (run : Run) (w : World)
    (h : run.hands_over env w = true) :
    (∃ r, added_defines (new_events w (run.exec env w).2)
        = copies w.heap.outcome env.value_first r (valued w.cmdline_defines ++ specials env))
    ∧ (run.exec env w).2.heap.outcome = w.heap.outcome := by
  cases run with
  | parse input output =>
    have hp : env.push_ret = 0 := by simpa [Run.hands_over] using h
    obtain ⟨_, _, _, _, _, _, _, _, _, _, _, _, _, _, ha, ho⟩ :=
      wpp_parse_run_calls env input output w hp
    exact ⟨⟨_, ha⟩, ho⟩
  | temp input output_base =>
    have h3 : (w.heap.outcome w.heap.requests = true ∧ temp_fails env = false)
        ∧ env.push_ret = 0 := by
      simpa [Run.hands_over] using h
    obtain ⟨⟨halloc, hfail⟩, hp⟩ := h3
    cases hfd : env.mkstemps_fd with
    | none => simp [temp_fails, hfd] at hfail
    | some fd =>
      have hopen : env.fdopen_ok fd = true := by
        simpa [temp_fails, hfd] using hfail
      obtain ⟨w1, hc1, ho1, _, hheap, hev⟩ :=
        wpp_parse_temp_events env input output_base w fd halloc hfd hopen
      obtain ⟨_, _, _, _, _, _, _, _, _, _, _, _, _, _, ha, ho⟩ :=
        wpp_parse_run_calls env input (FILE.fdopened fd) w1 hp
      refine ⟨⟨w1.heap.requests, ?_⟩, ?_⟩
      · show added_defines (new_events w (wpp_parse_temp env input output_base w).2.2) = _
        rw [hev, added_defines_append, added_defines_append, ha, hc1, ho1]
        simp [added_defines]
      · show (wpp_parse_temp env input output_base w).2.2.heap.outcome = _
        rw [hheap, ho, ho1]


/-- C17, counterexample: two runs of `wpp_parse` in sequence on the table that defines `A`
as `1`, with no table operation in between.  The table is the same before both runs, but
the second run, whose push fails, hands no define to the engine while the first handed
over `A`; and when the allocator refuses one copy of the second run, that run hands `A`
over with a NULL value where the first handed over `1`. -/
theorem cmdline_defines_runs_differ :
    (wpp_parse calm (some "a.c") (FILE.given 0)
        (World.init [⟨"A", some "1"⟩])).2.cmdline_defines = [⟨"A", some "1"⟩]
    ∧ added_defines (new_events (World.init [⟨"A", some "1"⟩])
        (wpp_parse calm (some "a.c") (FILE.given 0) (World.init [⟨"A", some "1"⟩])).2)
      = [(some "A", some "1"), (some "__DATE__", some calm.date),
         (some "__TIME__", some calm.time), (some "__FILE__", some ""),
         (some "__LINE__", some "")]
    ∧ added_defines (new_events
        (wpp_parse calm (some "a.c") (FILE.given 0) (World.init [⟨"A", some "1"⟩])).2
        (wpp_parse { calm with push_ret := 1 } (some "a.c") (FILE.given 0)
          (wpp_parse calm (some "a.c") (FILE.given 0)
            (World.init [⟨"A", some "1"⟩])).2).2)
      = []
    ∧ added_defines (new_events
        { World.init [⟨"A", some "1"⟩] with heap := ⟨fun i => decide (i ≠ 10), 0⟩ }
        (wpp_parse calm (some "a.c") (FILE.given 0)
          { World.init [⟨"A", some "1"⟩] with heap := ⟨fun i => decide (i ≠ 10), 0⟩ }).2)
      = [(some "A", some "1"), (some "__DATE__", some calm.date),
         (some "__TIME__", some calm.time), (some "__FILE__", some ""),
         (some "__LINE__", some "")]
    ∧ added_defines (new_events
        (wpp_parse calm (some "a.c") (FILE.given 0)
          { World.init [⟨"A", some "1"⟩] with heap := ⟨fun i => decide (i ≠ 10), 0⟩ }).2
        (wpp_parse calm (some "a.c") (FILE.given 0)
          (wpp_parse calm (some "a.c") (FILE.given 0)
            { World.init [⟨"A", some "1"⟩] with
              heap := ⟨fun i => decide (i ≠ 10), 0⟩ }).2).2)
      = [(some "A", none), (some "__DATE__", some calm.date),
         (some "__TIME__", some calm.time), (some "__FILE__", some ""),
         (some "__LINE__", some "")] := by
  refine ⟨by decide, by decide, by decide, by decide, by decide⟩

/-- C17, amended: on every exit path `wpp_parse` and `wpp_parse_temp` leave the
command-line table exactly as it was, so the table a second run starts from is the table
the first run started from, whichever of the two functions each run is.  A run that does
not get to the hand-over (its push fails or, for `wpp_parse_temp`, the name buffer, the
file or the stream is not obtained) hands the engine nothing.  When both runs get there,
each hands over the copies of the entries with a value, in table order, followed by those
of its own four special defines, a copy being NULL when the allocator did not serve it;
when the allocator serves every copy, the command-line defines handed over are the same
in both runs. -/
theorem cmdline_defines_persist (env1 env2 : Env) (run1 run2 : Run) (w : World) :
    (run1.exec env1 w).2.cmdline_defines = w.cmdline_defines
    ∧ (run2.exec env2 (run1.exec env1 w).2).2.cmdline_defines = w.cmdline_defines
    ∧ (run1.hands_over env1 w = false →
        added_defines (new_events w (run1.exec env1 w).2) = [])
    ∧ (run2.hands_over env2 (run1.exec env1 w).2 = false →
        added_defines (new_events (run1.exec env1 w).2
          (run2.exec env2 (run1.exec env1 w).2).2) = [])
    ∧ (run1.hands_over env1 w = true → run2.hands_over env2 (run1.exec env1 w).2 = true →
        (∃ r1 r2,
          added_defines (new_events w (run1.exec env1 w).2)
            = copies w.heap.outcome env1.value_first r1
                (valued w.cmdline_defines ++ specials env1)
          ∧ added_defines (new_events (run1.exec env1 w).2
              (run2.exec env2 (run1.exec env1 w).2).2)
            = copies w.heap.outcome env2.value_first r2
                (valued w.cmdline_defines ++ specials env2))
        ∧ ((∀ i, w.heap.outcome i = true) →
            added_defines (new_events w (run1.exec env1 w).2)
              = served_copies (valued w.cmdline_defines) ++ served_copies (specials env1)
            ∧ added_defines (new_events (run1.exec env1 w).2
                (run2.exec env2 (run1.exec env1 w).2).2)
              = served_copies (valued w.cmdline_defines)
                ++ served_copies (specials env2))) := by
  have h1 := run_exec_table env1 run1 w
  have h2 := run_exec_table env2 run2 (run1.exec env1 w).2
  refine ⟨h1, by rw [h2, h1], run_exec_no_hand_over env1 run1 w,
    run_exec_no_hand_over env2 run2 _, ?_⟩
  intro hp1 hp2
  obtain ⟨⟨r1, ha1⟩, ho1⟩ := run_exec_hand_over env1 run1 w hp1
  obtain ⟨⟨r2, ha2⟩, _⟩ := run_exec_hand_over env2 run2 (run1.exec env1 w).2 hp2
  rw [ho1, h1] at ha2
  refine ⟨⟨r1, r2, ha1, ha2⟩, ?_⟩
  intro hall
  rw [ha1, ha2, copies_served _ hall, copies_served _ hall, served_copies_append,
    served_copies_append]
  exact ⟨rfl, rfl⟩

/-- C17 at a run of `wpp_parse_temp` followed by a run of `wpp_parse` on a table with one
define and one deleted name. -/
theorem cmdline_defines_persist_witness :
    (Run.temp (some "a.c") none).hands_over calm
        (World.init [⟨"A", some "1"⟩, ⟨"B", none⟩]) = true
    ∧ (Run.parse none (FILE.given 1)).hands_over calm
        ((Run.temp (some "a.c") none).exec calm
          (World.init [⟨"A", some "1"⟩, ⟨"B", none⟩])).2 = true
    ∧ (∀ i, (World.init [⟨"A", some "1"⟩, ⟨"B", none⟩]).heap.outcome i = true)
    ∧ ((Run.parse none (FILE.given 1)).exec calm
        ((Run.temp (some "a.c") none).exec calm
          (World.init [⟨"A", some "1"⟩, ⟨"B", none⟩])).2).2.cmdline_defines
      = [⟨"A", some "1"⟩, ⟨"B", none⟩]
    ∧ added_defines (new_events (World.init [⟨"A", some "1"⟩, ⟨"B", none⟩])
        ((Run.temp (some "a.c") none).exec calm
          (World.init [⟨"A", some "1"⟩, ⟨"B", none⟩])).2)
      = served_copies (valued [⟨"A", some "1"⟩, ⟨"B", none⟩])
        ++ served_copies (specials calm)
    ∧ added_defines (new_events
        ((Run.temp (some "a.c") none).exec calm
          (World.init [⟨"A", some "1"⟩, ⟨"B", none⟩])).2
        ((Run.parse none (FILE.given 1)).exec calm
          ((Run.temp (some "a.c") none).exec calm
            (World.init [⟨"A", some "1"⟩, ⟨"B", none⟩])).2).2)
      = served_copies (valued [⟨"A", some "1"⟩, ⟨"B", none⟩])
        ++ served_copies (specials calm) :=
  ⟨by decide, by decide, fun _ => rfl,
   (cmdline_defines_persist calm calm (Run.temp (some "a.c") none)
      (Run.parse none (FILE.given 1)) (World.init [⟨"A", some "1"⟩, ⟨"B", none⟩])).2.1,
   ((cmdline_defines_persist calm calm (Run.temp (some "a.c") none)
      (Run.parse none (FILE.given 1))
      (World.init [⟨"A", some "1"⟩, ⟨"B", none⟩])).2.2.2.2 (by decide) (by decide)).2
        (fun _ => rfl)⟩


/-! ## What `add_cmdline_defines` forwards -/

end Wpp
